import Mathlib

/-!
# Publish filter of `filter/simple.go`

A shallow embedding of `NewSimplePublishFilter`, `LockRequired` and
`PublishAllowed`, followed by the properties proved about them.

Modelling conventions.

* A Go `string` is a Lean `String`.  `strings.HasPrefix` and the slice
  expression `k[len(p):]` act on the sequence of characters; the only prefixes
  the source ever passes are the ASCII constants `"exclude_"` and
  `"eligible_"`, for which the character view and the byte view of a UTF-8
  string coincide.
* A Go map `map[string]T` is an association list `List (String × T)`.  The
  list denotes the map in which the first binding of a key wins: `GoMap.get`
  is `m[k]`, `GoMap.range` lists what `for k, v := range m` visits (each key
  once), `GoMap.set` is `m[k] = v`.
* A slice or map variable that may be `nil` is an `Option`: `none` is `nil`.
* Code that may panic returns a `Run`.
-/

namespace Filter

/-! ## Go run-time model -/

/-- Outcome of running Go code: a run-time panic, or a normal return. -/
inductive Run (α : Type) where
  | panic : Run α
  | ret (a : α) : Run α
  deriving DecidableEq, Repr

/-- Sequencing of code that may panic. -/
def Run.bind {α β : Type} : Run α → (α → Run β) → Run β
  | Run.panic, _ => Run.panic
  | Run.ret a, k => k a

/-- Go map with string keys, as an association list (first binding wins). -/
abbrev GoMap (α : Type) := List (String × α)

/-- Lookup `m[k]` with the comma-ok result as an `Option`. -/
def GoMap.get {α : Type} : GoMap α → String → Option α
  | [], _ => none
  | (k', v) :: rest, k => if k' = k then some v else GoMap.get rest k

/-- Builtin `delete(m, k)`: every binding of `k` goes. -/
def GoMap.delete {α : Type} (m : GoMap α) (k : String) : GoMap α :=
  m.filter (fun e => !decide (e.1 = k))

/-- Entries visited by `for k, v := range m`: every key once, with `m[k]`. -/
def GoMap.range {α : Type} : GoMap α → List (String × α)
  | [] => []
  | (k, v) :: rest => (k, v) :: GoMap.delete (GoMap.range rest) k

/-- Assignment `m[k] = v`. -/
def GoMap.set {α : Type} (m : GoMap α) (k : String) (v : α) : GoMap α :=
  (k, v) :: GoMap.delete m k

/-- Builtin `len(m)` of a map. -/
def GoMap.len {α : Type} (m : GoMap α) : Nat := (GoMap.range m).length

/-- Builtin `append(s, x)` on a slice that may be nil. -/
def goAppend {α : Type} (s : Option (List α)) (x : α) : Option (List α) :=
  some (s.getD [] ++ [x])

/-- Library function `strings.HasPrefix(s, p)`. -/
def HasPrefix (s p : String) : Bool := p.data.isPrefixOf s.data

/-- Slice expression `s[n:]`, which panics when `n > len(s)`. -/
def sliceFrom (s : String) (n : Nat) : Run String :=
  if n ≤ s.length then Run.ret ⟨s.data.drop n⟩ else Run.panic

/-! ## Package `wamp` -/

/-- Session and subscriber identifier `wamp.ID`; only ever compared. -/
abbrev ID := Nat

/-- Modelled from the spec: the dynamically typed values (`interface{}`) of a
`wamp.Dict` or `wamp.List`, declared in the external package `wamp`, as the
tagged variant of section 9 of the spec.  `null` is the nil interface (what
`opts[k]` yields for a missing key), `id` any value that converts to an
identifier, `other` any value of another type. -/
inductive Value where
  | null : Value
  | id (n : ID) : Value
  | str (s : String) : Value
  | list (xs : List Value) : Value
  | other : Value

/-- Options bag or session details, `wamp.Dict`. -/
abbrev Dict := GoMap Value

/-- Index expression `d[k]` on a `wamp.Dict`: nil for a missing key. -/
def Dict.index (d : Dict) (k : String) : Value := (GoMap.get d k).getD Value.null

/-- Modelled from the spec: `wamp.AsList` of the external package `wamp`, the
type-checked narrowing of a value to a list. -/
def AsList : Value → Option (List Value)
  | Value.list xs => some xs
  | _ => none

/-- Modelled from the spec: `wamp.AsID` of the external package `wamp`, the
type-checked narrowing of a value to an identifier. -/
def AsID : Value → Option ID
  | Value.id n => some n
  | _ => none

/-- Modelled from the spec: `wamp.AsString` of the external package `wamp`,
the type-checked narrowing of a value to a string.  Both Go results are kept:
on a mismatch the string result is the zero value `""`. -/
def AsString : Value → String × Bool
  | Value.str s => (s, true)
  | _ => ("", false)

/-- Subscriber session `wamp.Session`, reduced to the fields the filter reads. -/
structure Session where
  ID : ID
  Details : Dict

/-! ## `filter/simple.go` -/

/-- Filter state, `simplePublishFilter`. -/
structure simplePublishFilter where
  blIDs : List ID
  wlIDs : List ID
  blMap : GoMap (List String)
  wlMap : GoMap (List String)
  lockRequired : Bool
  deriving DecidableEq, Repr

/-- Constant `blacklistPrefix`. -/
def blacklistPrefix : String := "exclude_"

/-- Constant `whitelistPrefix`. -/
def whitelistPrefix : String := "eligible_"

/-- Loops at lines 33-37 and 44-48: append every element that parses as an
identifier. -/
def collectIDs : List Value → Option (List ID) → Option (List ID)
  | [], acc => acc
  | v :: vs, acc =>
    match AsID v with
    | some x => collectIDs vs (goAppend acc x)
    | none => collectIDs vs acc

/-- Lines 31-40 and 42-51: the identifier list under a reserved key. -/
def getIDs (v : Value) : Option (List ID) :=
  match AsList v with
  | some l => collectIDs l none
  | none =>
    match AsID v with
    | some x => goAppend none x
    | none => none

/-- Loop at lines 61-65: append every element that is a non-empty string. -/
def collectVals : List Value → List String → List String
  | [], vallist => vallist
  | v :: vs, vallist =>
    if (AsString v).2 && (AsString v).1 != "" then collectVals vs (vallist ++ [(AsString v).1])
    else collectVals vs vallist

/-- Body of the loop at lines 55-80 for one entry `(k, values)`. -/
def attrStep (pfx : String) (attrMap : Option (GoMap (List String))) (k : String)
    (values : Value) : Run (Option (GoMap (List String))) :=
  if !HasPrefix k pfx then Run.ret attrMap
  else
    match AsList values with
    | some vals =>
      let vallist := collectVals vals []
      if vallist.length != 0 then
        (sliceFrom k pfx.length).bind fun attrName =>
          Run.ret (some (GoMap.set (attrMap.getD []) attrName vallist))
      else Run.ret attrMap
    | none =>
      if (AsString values).2 then
        (sliceFrom k pfx.length).bind fun attrName =>
          Run.ret (some (GoMap.set (attrMap.getD []) attrName [(AsString values).1]))
      else Run.ret attrMap

/-- Loop at lines 55-80 over the entries still to visit. -/
def attrLoop (pfx : String) : List (String × Value) → Option (GoMap (List String)) →
    Run (Option (GoMap (List String)))
  | [], attrMap => Run.ret attrMap
  | (k, values) :: rest, attrMap => (attrStep pfx attrMap k values).bind (attrLoop pfx rest)

/-- Closure `getAttrMap` at lines 53-82. -/
def getAttrMap (opts : Dict) (pfx : String) : Run (Option (GoMap (List String))) :=
  attrLoop pfx (GoMap.range opts) none

/-- Function `NewSimplePublishFilter`; `Run.ret none` is the nil result.  The
reserved keys `wamp.BlacklistKey` and `wamp.WhitelistKey` are constants of the
external package `wamp` and are parameters here. -/
def NewSimplePublishFilter (BlacklistKey WhitelistKey : String) (opts : Dict) :
    Run (Option simplePublishFilter) :=
  if GoMap.len opts == 0 then Run.ret none
  else
    let blIDs := getIDs (Dict.index opts BlacklistKey)
    let wlIDs := getIDs (Dict.index opts WhitelistKey)
    (getAttrMap opts blacklistPrefix).bind fun blMap =>
    (getAttrMap opts whitelistPrefix).bind fun wlMap =>
    if blIDs.isNone && wlIDs.isNone && blMap.isNone && wlMap.isNone then Run.ret none
    else
      Run.ret (some
        { blIDs := blIDs.getD []
          wlIDs := wlIDs.getD []
          blMap := blMap.getD []
          wlMap := wlMap.getD []
          lockRequired := GoMap.len (blMap.getD []) != 0 || GoMap.len (wlMap.getD []) != 0 })

/-- Method `LockRequired`. -/
def LockRequired (f : simplePublishFilter) : Bool := f.lockRequired

/-- Loops at lines 108-112 and 117-122: does some element equal the session
identifier. -/
def idListed : List ID → ID → Bool
  | [], _ => false
  | x :: xs, id => if x == id then true else idListed xs id

/-- Loops at lines 136-141 and 154-160: does some element equal the session
attribute. -/
def valListed : List String → String → Bool
  | [], _ => false
  | x :: xs, s => if x == s then true else valListed xs s

/-- Loop at lines 129-142; `false` when the loop makes the function return
false, `true` when it runs to its end. -/
def blLoop (details : Dict) : List (String × List String) → Bool
  | [] => true
  | (attr, vals) :: rest =>
    let sessAttr := (AsString (Dict.index details attr)).1
    if sessAttr == "" then blLoop details rest
    else if valListed vals sessAttr then false
    else blLoop details rest

/-- Loop at lines 145-165; `false` when the loop makes the function return
false, `true` when it runs to its end. -/
def wlLoop (details : Dict) : List (String × List String) → Bool
  | [] => true
  | (attr, vals) :: rest =>
    let sessAttr := (AsString (Dict.index details attr)).1
    if sessAttr == "" then false
    else if !valListed vals sessAttr then false
    else wlLoop details rest

/-- Method `PublishAllowed`. -/
def PublishAllowed (f : simplePublishFilter) (sub : Session) : Bool :=
  if idListed f.blIDs sub.ID then false
  else if f.wlIDs.length != 0 && !idListed f.wlIDs sub.ID then false
  else if !blLoop sub.Details (GoMap.range f.blMap) then false
  else wlLoop sub.Details (GoMap.range f.wlMap)

/-- The attribute a session presents for `attr`: the string the two attribute
loops call `sessAttr`. -/
def sessAttrOf (details : Dict) (attr : String) : String :=
  (AsString (Dict.index details attr)).1

/-- A list element that line 62 keeps: a string other than `""`. -/
def nonEmptyStr : Value → Option String
  | Value.str s => if s = "" then none else some s
  | _ => none

/-- The value list that lines 59-79 store for an entry whose key carries the
prefix, if they store one. -/
def entryVals (values : Value) : Option (List String) :=
  match AsList values with
  | some vals =>
    if (collectVals vals []).length != 0 then some (collectVals vals []) else none
  | none => if (AsString values).2 then some [(AsString values).1] else none

/-- What the nil-or-map result of `getAttrMap` always satisfies: a map that is
not nil has an entry, and no entry holds an empty list. -/
def AttrMapOK (r : Option (GoMap (List String))) : Prop :=
  ∀ m, r = some m → m ≠ [] ∧ ∀ e ∈ m, e.2 ≠ []

/-- A value under a reserved identifier key that yields no identifier: a list
whose elements all fail to parse, or a scalar that does not parse. -/
def NoUsableID (v : Value) : Prop :=
  match AsList v with
  | some l => ∀ x ∈ l, AsID x = none
  | none => AsID v = none

/-- A value under an attribute key that yields no value list: a list without
a non-empty string element, or a scalar that is not a string. -/
def NoUsableString (v : Value) : Prop :=
  match AsList v with
  | some l => ∀ x ∈ l, nonEmptyStr x = none
  | none => (AsString v).2 = false

/-- Method `PublishAllowed` with the order in which the two `range` loops
visit the map entries made explicit: `blOrder` and `wlOrder` are the entries
of `f.blMap` and `f.wlMap` in the order the run time happens to yield them. -/
def PublishAllowedVia (blOrder wlOrder : List (String × List String))
    (f : simplePublishFilter) (sub : Session) : Bool :=
  if idListed f.blIDs sub.ID then false
  else if f.wlIDs.length != 0 && !idListed f.wlIDs sub.ID then false
  else if !blLoop sub.Details blOrder then false
  else wlLoop sub.Details wlOrder

/-- Check 1 of `PublishAllowed` on its own, as a plain boolean over the whole
of `blIDs`: the session identifier is not blacklisted. -/
def idBlacklistOK (f : simplePublishFilter) (sub : Session) : Bool :=
  !f.blIDs.any (fun x => x == sub.ID)

/-- Check 2 of `PublishAllowed` on its own, as a plain boolean over the whole
of `wlIDs`: no identifier whitelist, or the session identifier is in it. -/
def idWhitelistOK (f : simplePublishFilter) (sub : Session) : Bool :=
  f.wlIDs.isEmpty || f.wlIDs.any (fun x => x == sub.ID)

/-- Check 3 of `PublishAllowed` on its own, as a plain boolean over every
entry of `blMap`: the session attribute is `""` or is none of the values. -/
def attrBlacklistOK (f : simplePublishFilter) (sub : Session) : Bool :=
  (GoMap.range f.blMap).all fun e =>
    sessAttrOf sub.Details e.1 == "" || !e.2.any (fun x => x == sessAttrOf sub.Details e.1)

/-- Check 4 of `PublishAllowed` on its own, as a plain boolean over every
entry of `wlMap`: the session attribute is not `""` and is one of the values. -/
def attrWhitelistOK (f : simplePublishFilter) (sub : Session) : Bool :=
  (GoMap.range f.wlMap).all fun e =>
    sessAttrOf sub.Details e.1 != "" && e.2.any (fun x => x == sessAttrOf sub.Details e.1)

/-- Two attribute maps with the same keys whose value lists, key by key, hold
the same set of strings. -/
def SameEntries (m1 m2 : GoMap (List String)) : Prop :=
  ∀ attr,
    ((GoMap.get m1 attr).isSome = (GoMap.get m2 attr).isSome) ∧
      ∀ vs1 vs2, GoMap.get m1 attr = some vs1 → GoMap.get m2 attr = some vs2 →
        ∀ s, s ∈ vs1 ↔ s ∈ vs2

/-! ## Lemmas on the run-time model -/

theorem idListed_iff (xs : List ID) (id : ID) : idListed xs id = true ↔ id ∈ xs := by
  induction xs with
  | nil => simp [idListed]
  | cons x xs ih =>
    by_cases h : x = id
    · simp [idListed, h]
    · have h2 : ¬ id = x := fun e => h e.symm
      simp [idListed, h, h2, ih]

theorem valListed_iff (xs : List String) (s : String) : valListed xs s = true ↔ s ∈ xs := by
  induction xs with
  | nil => simp [valListed]
  | cons x xs ih =>
    by_cases h : x = s
    · simp [valListed, h]
    · have h2 : ¬ s = x := fun e => h e.symm
      simp [valListed, h, h2, ih]

theorem GoMap.get_eq_some_mem {α : Type} (m : GoMap α) (k : String) (v : α)
    (h : GoMap.get m k = some v) : (k, v) ∈ m := by
  induction m with
  | nil => simp [GoMap.get] at h
  | cons e rest ih =>
    obtain ⟨k1, v1⟩ := e
    by_cases hk : k1 = k
    · simp [GoMap.get, hk] at h
      simp [hk, h]
    · simp [GoMap.get, hk] at h
      exact List.mem_cons_of_mem _ (ih h)

theorem GoMap.mem_range_iff {α : Type} (m : GoMap α) (k : String) (v : α) :
    (k, v) ∈ GoMap.range m ↔ GoMap.get m k = some v := by
  induction m with
  | nil => simp [GoMap.range, GoMap.get]
  | cons e rest ih =>
    obtain ⟨k1, v1⟩ := e
    by_cases hk : k1 = k
    · subst hk
      simp [GoMap.range, GoMap.delete, GoMap.get, List.mem_filter, eq_comm]
    · have hk2 : ¬ k = k1 := fun e => hk e.symm
      simp [GoMap.range, GoMap.delete, GoMap.get, List.mem_filter, hk, hk2, ih]

theorem AsString_str (s : String) : AsString (Value.str s) = (s, true) := rfl

theorem AsString_fst_of_not_str (v : Value) (h : ∀ s, v ≠ Value.str s) :
    (AsString v).1 = "" := by
  cases v with
  | str s => exact absurd rfl (h s)
  | null => rfl
  | id n => rfl
  | list xs => rfl
  | other => rfl

theorem AsString_snd_iff (v : Value) : (AsString v).2 = true ↔ ∃ s, v = Value.str s := by
  cases v <;> simp [AsString]

theorem AsString_eq_of_snd (v : Value) (h : (AsString v).2 = true) :
    v = Value.str (AsString v).1 := by
  cases v <;> simp [AsString] at h ⊢

theorem blLoop_iff (details : Dict) (l : List (String × List String)) :
    blLoop details l = true ↔
      ∀ e ∈ l, sessAttrOf details e.1 = "" ∨ sessAttrOf details e.1 ∉ e.2 := by
  induction l with
  | nil => simp [blLoop]
  | cons e rest ih =>
    obtain ⟨attr, vals⟩ := e
    by_cases h1 : sessAttrOf details attr = ""
    · have h1b : (AsString (Dict.index details attr)).1 = "" := h1
      simp [blLoop, h1b, ih, h1]
    · have h1b : ¬ (AsString (Dict.index details attr)).1 = "" := h1
      by_cases h2 : sessAttrOf details attr ∈ vals
      · have h2b : valListed vals (AsString (Dict.index details attr)).1 = true :=
          (valListed_iff _ _).mpr h2
        simp [blLoop, h1b, h2b, h1, h2]
      · have h2b : valListed vals (AsString (Dict.index details attr)).1 = false := by
          cases hv : valListed vals (AsString (Dict.index details attr)).1 with
          | false => rfl
          | true => exact absurd ((valListed_iff _ _).mp hv) h2
        simp [blLoop, h1b, h2b, h1, h2, ih]

theorem wlLoop_iff (details : Dict) (l : List (String × List String)) :
    wlLoop details l = true ↔
      ∀ e ∈ l, sessAttrOf details e.1 ≠ "" ∧ sessAttrOf details e.1 ∈ e.2 := by
  induction l with
  | nil => simp [wlLoop]
  | cons e rest ih =>
    obtain ⟨attr, vals⟩ := e
    by_cases h1 : sessAttrOf details attr = ""
    · have h1b : (AsString (Dict.index details attr)).1 = "" := h1
      simp [wlLoop, h1b, h1]
    · have h1b : ¬ (AsString (Dict.index details attr)).1 = "" := h1
      by_cases h2 : sessAttrOf details attr ∈ vals
      · have h2b : valListed vals (AsString (Dict.index details attr)).1 = true :=
          (valListed_iff _ _).mpr h2
        simp [wlLoop, h1b, h2b, h1, h2, ih]
      · have h2b : valListed vals (AsString (Dict.index details attr)).1 = false := by
          cases hv : valListed vals (AsString (Dict.index details attr)).1 with
          | false => rfl
          | true => exact absurd ((valListed_iff _ _).mp hv) h2
        simp [wlLoop, h1b, h2b, h1, h2]

/-- The four checks of `PublishAllowed`, each read off the loop it embeds. -/
theorem PublishAllowed_checks (f : simplePublishFilter) (sub : Session) :
    PublishAllowed f sub = true ↔
      sub.ID ∉ f.blIDs ∧ (f.wlIDs = [] ∨ sub.ID ∈ f.wlIDs) ∧
      (∀ e ∈ GoMap.range f.blMap,
        sessAttrOf sub.Details e.1 = "" ∨ sessAttrOf sub.Details e.1 ∉ e.2) ∧
      (∀ e ∈ GoMap.range f.wlMap,
        sessAttrOf sub.Details e.1 ≠ "" ∧ sessAttrOf sub.Details e.1 ∈ e.2) := by
  unfold PublishAllowed
  rw [← blLoop_iff, ← wlLoop_iff]
  by_cases h1 : sub.ID ∈ f.blIDs
  · simp [(idListed_iff _ _).mpr h1, h1]
  · have h1b : idListed f.blIDs sub.ID = false := by
      cases hv : idListed f.blIDs sub.ID with
      | false => rfl
      | true => exact absurd ((idListed_iff _ _).mp hv) h1
    by_cases h2 : f.wlIDs = []
    · simp [h1b, h1, h2]
    · by_cases h3 : sub.ID ∈ f.wlIDs
      · simp [h1b, h1, h2, h3, (idListed_iff _ _).mpr h3]
      · have h3b : idListed f.wlIDs sub.ID = false := by
          cases hv : idListed f.wlIDs sub.ID with
          | false => rfl
          | true => exact absurd ((idListed_iff _ _).mp hv) h3
        simp [h1b, h1, h2, h3, h3b]

/-! ## Lemmas on the builder -/

theorem HasPrefix_iff (k p : String) : HasPrefix k p = true ↔ ∃ a : String, k = p ++ a := by
  unfold HasPrefix
  rw [List.isPrefixOf_iff_prefix]
  constructor
  · rintro ⟨t, ht⟩
    exact ⟨⟨t⟩, String.ext (by simp [ht])⟩
  · rintro ⟨a, rfl⟩
    exact ⟨a.data, by simp⟩

theorem sliceFrom_append (p a : String) : sliceFrom (p ++ a) p.length = Run.ret a := by
  unfold sliceFrom
  have h : p.length ≤ (p ++ a).length := by simp
  rw [if_pos h]
  congr 1
  apply String.ext
  show List.drop p.data.length (p.data ++ a.data) = a.data
  exact List.drop_left _ _

theorem append_left_cancel (p a b : String) (h : p ++ a = p ++ b) : a = b := by
  have h2 : (p ++ a).data = (p ++ b).data := by rw [h]
  simp only [String.data_append, List.append_cancel_left_eq] at h2
  exact String.ext h2

theorem collectIDs_eq (l : List Value) (acc : Option (List ID)) :
    collectIDs l acc =
      if l.filterMap AsID = [] then acc else some (acc.getD [] ++ l.filterMap AsID) := by
  induction l generalizing acc with
  | nil => simp [collectIDs]
  | cons v vs ih =>
    cases hv : AsID v with
    | none => simp [collectIDs, hv, ih]
    | some x =>
      simp only [collectIDs, hv, ih, goAppend, List.filterMap_cons]
      by_cases h : vs.filterMap AsID = []
      · simp [h]
      · simp [h]

theorem getIDs_list (l : List Value) :
    (getIDs (Value.list l)).getD [] = l.filterMap AsID := by
  simp only [getIDs, AsList, collectIDs_eq]
  by_cases h : l.filterMap AsID = []
  · simp [h]
  · simp [h]

theorem getIDs_ne_nil (v : Value) (l : List ID) (h : getIDs v = some l) : l ≠ [] := by
  unfold getIDs at h
  cases hl : AsList v with
  | some vs =>
    rw [hl] at h
    simp only [collectIDs_eq] at h
    by_cases hn : vs.filterMap AsID = []
    · simp [hn] at h
    · simp [hn] at h
      rw [← h]
      exact hn
  | none =>
    rw [hl] at h
    cases hi : AsID v with
    | none => simp [hi] at h
    | some x =>
      simp [hi, goAppend] at h
      rw [← h]
      simp

theorem collectVals_eq (l : List Value) (acc : List String) :
    collectVals l acc = acc ++ l.filterMap nonEmptyStr := by
  induction l generalizing acc with
  | nil => simp [collectVals]
  | cons v vs ih =>
    cases v with
    | str s =>
      by_cases hs : s = ""
      · simp [collectVals, AsString, nonEmptyStr, hs, ih]
      · simp [collectVals, AsString, nonEmptyStr, hs, ih]
    | null => simp [collectVals, AsString, nonEmptyStr, ih]
    | id n => simp [collectVals, AsString, nonEmptyStr, ih]
    | list xs => simp [collectVals, AsString, nonEmptyStr, ih]
    | other => simp [collectVals, AsString, nonEmptyStr, ih]

theorem entryVals_list (l : List Value) :
    entryVals (Value.list l) =
      if l.filterMap nonEmptyStr = [] then none else some (l.filterMap nonEmptyStr) := by
  simp only [entryVals, AsList, collectVals_eq, List.nil_append]
  by_cases h : l.filterMap nonEmptyStr = []
  · simp [h]
  · simp [h]

theorem entryVals_ne_nil (v : Value) (vl : List String) (h : entryVals v = some vl) :
    vl ≠ [] := by
  unfold entryVals at h
  cases hl : AsList v with
  | some vals =>
    rw [hl] at h
    by_cases hn : (collectVals vals []).length = 0
    · simp [hn] at h
    · simp [hn] at h
      rw [← h]
      intro h0
      exact hn (by simp [h0])
  | none =>
    rw [hl] at h
    by_cases hs : (AsString v).2 = true
    · simp [hs] at h
      rw [← h]
      simp
    · simp [hs] at h

theorem attrStep_skip (pfx : String) (acc : Option (GoMap (List String))) (k : String)
    (v : Value) (h : HasPrefix k pfx = false) : attrStep pfx acc k v = Run.ret acc := by
  simp [attrStep, h]

theorem attrStep_keyed (pfx : String) (acc : Option (GoMap (List String))) (a : String)
    (v : Value) :
    attrStep pfx acc (pfx ++ a) v =
      Run.ret (match entryVals v with
        | some vl => some (GoMap.set (acc.getD []) a vl)
        | none => acc) := by
  have hp : HasPrefix (pfx ++ a) pfx = true := (HasPrefix_iff _ _).mpr ⟨a, rfl⟩
  unfold attrStep entryVals
  simp only [hp, Bool.not_true, Bool.false_eq_true, if_false, sliceFrom_append, Run.bind]
  cases hl : AsList v with
  | some vals =>
    by_cases hn : (collectVals vals []).length = 0
    · simp [hn]
    · simp [hn]
  | none =>
    by_cases hs : (AsString v).2 = true
    · simp [hs]
    · simp [hs]

theorem GoMap.delete_cons {α : Type} (m : GoMap α) (k k2 : String) (v2 : α) :
    GoMap.delete ((k2, v2) :: m) k =
      if k2 = k then GoMap.delete m k else (k2, v2) :: GoMap.delete m k := by
  by_cases h : k2 = k
  · simp [GoMap.delete, List.filter, h]
  · simp [GoMap.delete, List.filter, h]

theorem GoMap.get_delete_ne {α : Type} (m : GoMap α) (k k1 : String) (h : k ≠ k1) :
    GoMap.get (GoMap.delete m k) k1 = GoMap.get m k1 := by
  induction m with
  | nil => rfl
  | cons e rest ih =>
    obtain ⟨k2, v2⟩ := e
    rw [GoMap.delete_cons]
    by_cases h2 : k2 = k
    · have h3 : ¬ k2 = k1 := fun e => h (h2.symm.trans e)
      rw [if_pos h2, ih]
      simp [GoMap.get, h3]
    · rw [if_neg h2]
      by_cases h3 : k2 = k1
      · simp [GoMap.get, h3]
      · simp [GoMap.get, h3, ih]

theorem GoMap.get_delete_self {α : Type} (m : GoMap α) (k : String) :
    GoMap.get (GoMap.delete m k) k = none := by
  induction m with
  | nil => rfl
  | cons e rest ih =>
    obtain ⟨k2, v2⟩ := e
    rw [GoMap.delete_cons]
    by_cases h2 : k2 = k
    · rw [if_pos h2, ih]
    · rw [if_neg h2]
      simp [GoMap.get, h2, ih]

theorem GoMap.get_set {α : Type} (m : GoMap α) (k k1 : String) (v : α) :
    GoMap.get (GoMap.set m k v) k1 = if k = k1 then some v else GoMap.get m k1 := by
  by_cases h : k = k1
  · simp [GoMap.set, GoMap.get, h]
  · simp [GoMap.set, GoMap.get, h, GoMap.get_delete_ne m k k1 h]

theorem GoMap.get_delete {α : Type} (m : GoMap α) (k k1 : String) :
    GoMap.get (GoMap.delete m k) k1 = if k = k1 then none else GoMap.get m k1 := by
  by_cases h : k = k1
  · subst h
    simp [GoMap.get_delete_self]
  · simp [h, GoMap.get_delete_ne m k k1 h]

theorem GoMap.get_range {α : Type} (m : GoMap α) (k : String) :
    GoMap.get (GoMap.range m) k = GoMap.get m k := by
  induction m with
  | nil => rfl
  | cons e rest ih =>
    obtain ⟨k1, v1⟩ := e
    by_cases h : k1 = k
    · simp [GoMap.range, GoMap.get, h]
    · simp [GoMap.range, GoMap.get, h, GoMap.get_delete_ne _ k1 k h, ih]

theorem GoMap.get_eq_none_iff {α : Type} (m : GoMap α) (k : String) :
    GoMap.get m k = none ↔ k ∉ m.map Prod.fst := by
  induction m with
  | nil => simp [GoMap.get]
  | cons e rest ih =>
    obtain ⟨k1, v1⟩ := e
    by_cases h : k1 = k
    · simp [GoMap.get, h]
    · have h2 : ¬ k = k1 := fun e => h e.symm
      simp [GoMap.get, h, h2, ih]

theorem GoMap.range_nodup {α : Type} (m : GoMap α) :
    ((GoMap.range m).map Prod.fst).Nodup := by
  induction m with
  | nil => simp [GoMap.range]
  | cons e rest ih =>
    obtain ⟨k1, v1⟩ := e
    simp only [GoMap.range, List.map_cons, List.nodup_cons]
    constructor
    · simp [GoMap.delete, List.mem_filter]
    · exact List.Nodup.sublist (List.Sublist.map _ (List.filter_sublist _)) ih

theorem GoMap.len_eq_zero_iff {α : Type} (m : GoMap α) : GoMap.len m = 0 ↔ m = [] := by
  cases m with
  | nil => simp [GoMap.len, GoMap.range]
  | cons e rest =>
    obtain ⟨k1, v1⟩ := e
    simp [GoMap.len, GoMap.range]

theorem GoMap.range_eq_nil_iff {α : Type} (m : GoMap α) : GoMap.range m = [] ↔ m = [] := by
  cases m with
  | nil => simp [GoMap.range]
  | cons e rest =>
    obtain ⟨k1, v1⟩ := e
    simp [GoMap.range]

theorem attrStep_cases (pfx : String) (acc : Option (GoMap (List String))) (k : String)
    (v : Value) :
    attrStep pfx acc k v = Run.ret acc ∨
      ∃ a vl, k = pfx ++ a ∧ entryVals v = some vl ∧
        attrStep pfx acc k v = Run.ret (some (GoMap.set (acc.getD []) a vl)) := by
  cases hp : HasPrefix k pfx with
  | false => exact Or.inl (attrStep_skip pfx acc k v hp)
  | true =>
    obtain ⟨a, rfl⟩ := (HasPrefix_iff _ _).mp hp
    cases he : entryVals v with
    | none =>
      left
      rw [attrStep_keyed, he]
    | some vl =>
      right
      refine ⟨a, vl, rfl, rfl, ?_⟩
      rw [attrStep_keyed, he]

theorem attrLoop_total (pfx : String) (l : List (String × Value))
    (acc : Option (GoMap (List String))) : ∃ r, attrLoop pfx l acc = Run.ret r := by
  induction l generalizing acc with
  | nil => exact ⟨acc, rfl⟩
  | cons e rest ih =>
    obtain ⟨k, v⟩ := e
    rcases attrStep_cases pfx acc k v with h | ⟨a, vl, _, _, h⟩
    · obtain ⟨r, hr⟩ := ih acc
      exact ⟨r, by simp [attrLoop, h, Run.bind, hr]⟩
    · obtain ⟨r, hr⟩ := ih (some (GoMap.set (acc.getD []) a vl))
      exact ⟨r, by simp [attrLoop, h, Run.bind, hr]⟩

theorem attrLoop_unusable (pfx : String) (l : List (String × Value))
    (acc : Option (GoMap (List String)))
    (h : ∀ e ∈ l, HasPrefix e.1 pfx = true → entryVals e.2 = none) :
    attrLoop pfx l acc = Run.ret acc := by
  induction l generalizing acc with
  | nil => rfl
  | cons e rest ih =>
    obtain ⟨k, v⟩ := e
    have hrest : ∀ e ∈ rest, HasPrefix e.1 pfx = true → entryVals e.2 = none :=
      fun e he => h e (List.mem_cons_of_mem _ he)
    rcases attrStep_cases pfx acc k v with hs | ⟨a, vl, hk, he, _⟩
    · simp [attrLoop, hs, Run.bind, ih acc hrest]
    · have hp : HasPrefix k pfx = true := (HasPrefix_iff _ _).mpr ⟨a, hk⟩
      have := h (k, v) (List.mem_cons_self _ _) hp
      simp [he] at this

theorem attrLoop_ok (pfx : String) (l : List (String × Value))
    (acc r : Option (GoMap (List String))) (hacc : AttrMapOK acc)
    (h : attrLoop pfx l acc = Run.ret r) : AttrMapOK r := by
  induction l generalizing acc with
  | nil =>
    simp [attrLoop] at h
    rw [← h]
    exact hacc
  | cons e rest ih =>
    obtain ⟨k, v⟩ := e
    rcases attrStep_cases pfx acc k v with hs | ⟨a, vl, _, he, hs⟩
    · simp only [attrLoop, hs, Run.bind] at h
      exact ih acc hacc h
    · simp only [attrLoop, hs, Run.bind] at h
      refine ih _ ?_ h
      intro m hm
      simp only [Option.some.injEq] at hm
      subst hm
      refine ⟨by simp [GoMap.set], ?_⟩
      intro e he2
      simp only [GoMap.set, GoMap.delete, List.mem_cons, List.mem_filter] at he2
      rcases he2 with rfl | ⟨hmem, _⟩
      · exact entryVals_ne_nil v vl he
      · cases acc with
        | none => simp at hmem
        | some m0 => exact (hacc m0 rfl).2 e hmem

theorem attrLoop_get (pfx : String) (l : List (String × Value))
    (acc r : Option (GoMap (List String))) (hnd : (l.map Prod.fst).Nodup)
    (h : attrLoop pfx l acc = Run.ret r) (a : String) :
    GoMap.get (r.getD []) a =
      match (GoMap.get l (pfx ++ a)).bind entryVals with
      | some vl => some vl
      | none => GoMap.get (acc.getD []) a := by
  induction l generalizing acc with
  | nil =>
    simp [attrLoop] at h
    simp [GoMap.get, h]
  | cons e rest ih =>
    obtain ⟨k, v⟩ := e
    simp only [List.map_cons, List.nodup_cons] at hnd
    obtain ⟨hk, hnd2⟩ := hnd
    by_cases hka : k = pfx ++ a
    · have hnone : GoMap.get rest (pfx ++ a) = none := by
        rw [GoMap.get_eq_none_iff, ← hka]
        exact hk
      subst hka
      rw [attrLoop, attrStep_keyed] at h
      simp only [Run.bind] at h
      have := ih _ hnd2 h
      rw [this, hnone]
      simp only [GoMap.get, if_true, Option.bind]
      cases he : entryVals v with
      | none => simp
      | some vl => simp [GoMap.get_set]
    · have hget : GoMap.get ((k, v) :: rest) (pfx ++ a) = GoMap.get rest (pfx ++ a) := by
        simp [GoMap.get, hka]
      rw [hget]
      rcases attrStep_cases pfx acc k v with hs | ⟨a1, vl, hk1, _, hs⟩
      · simp only [attrLoop, hs, Run.bind] at h
        exact ih acc hnd2 h
      · simp only [attrLoop, hs, Run.bind] at h
        have := ih _ hnd2 h
        rw [this]
        have hne : a1 ≠ a := by
          intro e
          exact hka (by rw [hk1, e])
        simp [GoMap.get_set, hne]

theorem getAttrMap_total (opts : Dict) (pfx : String) :
    ∃ r, getAttrMap opts pfx = Run.ret r :=
  attrLoop_total pfx (GoMap.range opts) none

theorem getAttrMap_ok (opts : Dict) (pfx : String) (r : Option (GoMap (List String)))
    (h : getAttrMap opts pfx = Run.ret r) : AttrMapOK r :=
  attrLoop_ok pfx (GoMap.range opts) none r (fun m hm => by simp at hm) h

theorem getAttrMap_get (opts : Dict) (pfx : String) (r : Option (GoMap (List String)))
    (h : getAttrMap opts pfx = Run.ret r) (a : String) :
    GoMap.get (r.getD []) a = (GoMap.get opts (pfx ++ a)).bind entryVals := by
  have := attrLoop_get pfx (GoMap.range opts) none r (GoMap.range_nodup opts) h a
  rw [this, GoMap.get_range]
  cases (GoMap.get opts (pfx ++ a)).bind entryVals with
  | none => simp [GoMap.get]
  | some vl => rfl

theorem getAttrMap_unusable (opts : Dict) (pfx : String)
    (h : ∀ k v, GoMap.get opts k = some v → HasPrefix k pfx = true → entryVals v = none) :
    getAttrMap opts pfx = Run.ret none := by
  apply attrLoop_unusable
  intro e he hp
  obtain ⟨k, v⟩ := e
  exact h k v ((GoMap.mem_range_iff opts k v).mp he) hp

theorem AttrMapOK_getD_ne_nil (r : Option (GoMap (List String))) (h : AttrMapOK r)
    (hr : r.isNone = false) : r.getD [] ≠ [] := by
  cases r with
  | none => simp at hr
  | some m => exact (h m rfl).1

theorem AttrMapOK_vals (r : Option (GoMap (List String))) (h : AttrMapOK r)
    (a : String) (vl : List String) (hg : GoMap.get (r.getD []) a = some vl) : vl ≠ [] := by
  cases r with
  | none => simp [GoMap.get] at hg
  | some m => exact (h m rfl).2 (a, vl) (GoMap.get_eq_some_mem m a vl hg)

theorem getIDs_getD_ne_nil (v : Value) (hr : (getIDs v).isNone = false) :
    (getIDs v).getD [] ≠ [] := by
  cases h : getIDs v with
  | none => simp [h] at hr
  | some l => exact getIDs_ne_nil v l h

/-- The builder once both calls of `getAttrMap` have returned. -/
theorem New_of_attr (B W : String) (opts : Dict) (bl wl : Option (GoMap (List String)))
    (hb : getAttrMap opts blacklistPrefix = Run.ret bl)
    (hw : getAttrMap opts whitelistPrefix = Run.ret wl) :
    NewSimplePublishFilter B W opts =
      if GoMap.len opts == 0 then Run.ret none
      else if (getIDs (Dict.index opts B)).isNone && (getIDs (Dict.index opts W)).isNone &&
          bl.isNone && wl.isNone then Run.ret none
      else Run.ret (some
        { blIDs := (getIDs (Dict.index opts B)).getD []
          wlIDs := (getIDs (Dict.index opts W)).getD []
          blMap := bl.getD []
          wlMap := wl.getD []
          lockRequired := GoMap.len (bl.getD []) != 0 || GoMap.len (wl.getD []) != 0 }) := by
  unfold NewSimplePublishFilter
  simp only [hb, hw, Run.bind]

/-- What is known of a filter the builder returned. -/
theorem New_some (B W : String) (opts : Dict) (f : simplePublishFilter)
    (h : NewSimplePublishFilter B W opts = Run.ret (some f)) :
    ∃ bl wl, getAttrMap opts blacklistPrefix = Run.ret bl ∧
      getAttrMap opts whitelistPrefix = Run.ret wl ∧
      ((getIDs (Dict.index opts B)).isNone && (getIDs (Dict.index opts W)).isNone &&
          bl.isNone && wl.isNone) = false ∧
      f = { blIDs := (getIDs (Dict.index opts B)).getD []
            wlIDs := (getIDs (Dict.index opts W)).getD []
            blMap := bl.getD []
            wlMap := wl.getD []
            lockRequired := GoMap.len (bl.getD []) != 0 || GoMap.len (wl.getD []) != 0 } := by
  obtain ⟨bl, hb⟩ := getAttrMap_total opts blacklistPrefix
  obtain ⟨wl, hw⟩ := getAttrMap_total opts whitelistPrefix
  refine ⟨bl, wl, hb, hw, ?_⟩
  rw [New_of_attr B W opts bl wl hb hw] at h
  by_cases h0 : (GoMap.len opts == 0) = true
  · rw [if_pos h0] at h
    simp at h
  · rw [if_neg h0] at h
    cases hc : ((getIDs (Dict.index opts B)).isNone && (getIDs (Dict.index opts W)).isNone &&
          bl.isNone && wl.isNone) with
    | true =>
      rw [hc] at h
      simp at h
    | false =>
      rw [hc] at h
      simp only [Bool.false_eq_true, if_false, Run.ret.injEq, Option.some.injEq] at h
      exact ⟨rfl, h.symm⟩

theorem sessAttrOf_str (details : Dict) (attr s : String)
    (h : Dict.index details attr = Value.str s) : sessAttrOf details attr = s := by
  simp [sessAttrOf, h, AsString]

theorem sessAttrOf_not_str (details : Dict) (attr : String)
    (h : ∀ s, Dict.index details attr ≠ Value.str s) : sessAttrOf details attr = "" :=
  AsString_fst_of_not_str _ h

theorem sessAttrOf_ne_empty (details : Dict) (attr : String)
    (h : sessAttrOf details attr ≠ "") :
    Dict.index details attr = Value.str (sessAttrOf details attr) := by
  unfold sessAttrOf at h ⊢
  cases hv : Dict.index details attr with
  | str s => rfl
  | null => simp [hv, AsString] at h
  | id n => simp [hv, AsString] at h
  | list xs => simp [hv, AsString] at h
  | other => simp [hv, AsString] at h

theorem index_not_str_of_missing (details : Dict) (attr : String)
    (h : GoMap.get details attr = none ∨
      ∃ v, GoMap.get details attr = some v ∧ ∀ s, v ≠ Value.str s) :
    ∀ s, Dict.index details attr ≠ Value.str s := by
  intro s
  rcases h with h | ⟨v, hv, hs⟩
  · simp [Dict.index, h]
  · simp only [Dict.index, hv, Option.getD_some]
    exact hs s

/-! ## The evaluator: `PublishAllowed` -/

/-- C1 (as stated, refuted): with blMap = {a: [""]} and details = {a: ""} the
session is allowed although details[a] is a string that occurs in the values,
so PublishAllowed is not equivalent to the four conditions as worded. -/
theorem c1_counterexample :
    ¬ (PublishAllowed ⟨[], [], [("a", [""])], [], true⟩ ⟨1, [("a", Value.str "")]⟩ = true ↔
      ((1 : ID) ∉ ([] : List ID) ∧
       (([] : List ID) = [] ∨ (1 : ID) ∈ ([] : List ID)) ∧
       (∀ attr values, GoMap.get [("a", [""])] attr = some values →
          ∀ s, Dict.index [("a", Value.str "")] attr = Value.str s → s ∉ values) ∧
       (∀ attr values, GoMap.get ([] : GoMap (List String)) attr = some values →
          ∃ s, Dict.index [("a", Value.str "")] attr = Value.str s ∧ s ∈ values))) := by
  intro h
  have hallowed : PublishAllowed ⟨[], [], [("a", [""])], [], true⟩
      ⟨1, [("a", Value.str "")]⟩ = true := by decide
  obtain ⟨_, _, h3, _⟩ := h.mp hallowed
  exact h3 "a" [""] (by decide) "" rfl (by simp)

/-- C1 (amended): PublishAllowed returns true if and only if (1) the session
id does not occur in blIDs; (2) wlIDs is empty or the session id occurs in
it; (3) for every (attr, values) in blMap, details[attr] is absent, is not a
string, is the empty string, or is a string that does not occur in values;
(4) for every (attr, values) in wlMap, details[attr] is a non-empty string
that occurs in values. -/
theorem c1_publishAllowed_iff (f : simplePublishFilter) (sub : Session) :
    PublishAllowed f sub = true ↔
      (sub.ID ∉ f.blIDs ∧
       (f.wlIDs = [] ∨ sub.ID ∈ f.wlIDs) ∧
       (∀ attr values, GoMap.get f.blMap attr = some values →
          ∀ s, Dict.index sub.Details attr = Value.str s → s = "" ∨ s ∉ values) ∧
       (∀ attr values, GoMap.get f.wlMap attr = some values →
          ∃ s, Dict.index sub.Details attr = Value.str s ∧ s ≠ "" ∧ s ∈ values)) := by
  rw [PublishAllowed_checks]
  constructor
  · rintro ⟨h1, h2, h3, h4⟩
    refine ⟨h1, h2, ?_, ?_⟩
    · intro attr values hg s hs
      have := h3 (attr, values) ((GoMap.mem_range_iff _ _ _).mpr hg)
      simpa [sessAttrOf_str _ _ _ hs] using this
    · intro attr values hg
      obtain ⟨hne, hmem⟩ := h4 (attr, values) ((GoMap.mem_range_iff _ _ _).mpr hg)
      exact ⟨sessAttrOf sub.Details attr, sessAttrOf_ne_empty _ _ hne, hne, hmem⟩
  · rintro ⟨h1, h2, h3, h4⟩
    refine ⟨h1, h2, ?_, ?_⟩
    · rintro ⟨attr, values⟩ he
      have hg := (GoMap.mem_range_iff _ _ _).mp he
      by_cases hne : sessAttrOf sub.Details attr = ""
      · exact Or.inl hne
      · exact h3 attr values hg _ (sessAttrOf_ne_empty _ _ hne)
    · rintro ⟨attr, values⟩ he
      have hg := (GoMap.mem_range_iff _ _ _).mp he
      obtain ⟨s, hs, hne, hmem⟩ := h4 attr values hg
      rw [sessAttrOf_str _ _ _ hs]
      exact ⟨hne, hmem⟩

/-- C5: a session whose id occurs in blIDs is denied, whatever its details
are and whatever wlIDs holds. -/
theorem c5_blacklisted_id_denied (f : simplePublishFilter) (sub : Session)
    (h : sub.ID ∈ f.blIDs) : PublishAllowed f sub = false := by
  cases hp : PublishAllowed f sub with
  | false => rfl
  | true => exact absurd h ((PublishAllowed_checks f sub).mp hp).1

/-- C5 at blIDs = [5], wlIDs = [5, 6] and session id 5. -/
theorem c5_blacklisted_id_denied_witness :
    (5 : ID) ∈ [5] ∧
      PublishAllowed ⟨[5], [5, 6], [], [], false⟩ ⟨5, [("role", Value.str "admin")]⟩ = false :=
  ⟨by decide,
   c5_blacklisted_id_denied ⟨[5], [5, 6], [], [], false⟩ ⟨5, [("role", Value.str "admin")]⟩
     (by decide)⟩

/-- C6: when wlIDs is non-empty and the session id does not occur in it, the
session is denied, whatever the other three criteria are. -/
theorem c6_not_whitelisted_id_denied (f : simplePublishFilter) (sub : Session)
    (hne : f.wlIDs ≠ []) (h : sub.ID ∉ f.wlIDs) : PublishAllowed f sub = false := by
  cases hp : PublishAllowed f sub with
  | false => rfl
  | true =>
    rcases ((PublishAllowed_checks f sub).mp hp).2.1 with h2 | h2
    · exact absurd h2 hne
    · exact absurd h2 h

/-- C6 at wlIDs = [101, 102], session id 103, the other criteria empty. -/
theorem c6_not_whitelisted_id_denied_witness :
    ([101, 102] : List ID) ≠ [] ∧ (103 : ID) ∉ ([101, 102] : List ID) ∧
      PublishAllowed ⟨[], [101, 102], [], [], false⟩ ⟨103, []⟩ = false :=
  ⟨by decide, by decide,
   c6_not_whitelisted_id_denied ⟨[], [101, 102], [], [], false⟩ ⟨103, []⟩
     (by decide) (by decide)⟩

/-- C7: if some attribute name of wlMap is absent from the session details or
maps there to a value that is not a string, the session is denied. -/
theorem c7_missing_whitelist_attr_denied (f : simplePublishFilter) (sub : Session)
    (attr : String) (values : List String)
    (hattr : GoMap.get f.wlMap attr = some values)
    (hmiss : GoMap.get sub.Details attr = none ∨
      ∃ v, GoMap.get sub.Details attr = some v ∧ ∀ s, v ≠ Value.str s) :
    PublishAllowed f sub = false := by
  cases hp : PublishAllowed f sub with
  | false => rfl
  | true =>
    have h4 := ((PublishAllowed_checks f sub).mp hp).2.2.2 (attr, values)
      ((GoMap.mem_range_iff _ _ _).mpr hattr)
    exact absurd (sessAttrOf_not_str _ _ (index_not_str_of_missing _ _ hmiss)) h4.1

/-- C7 at wlMap = {region: [us, eu]} and a session whose region is a number. -/
theorem c7_missing_whitelist_attr_denied_witness :
    GoMap.get [("region", ["us", "eu"])] "region" = some ["us", "eu"] ∧
      PublishAllowed ⟨[], [], [], [("region", ["us", "eu"])], true⟩
        ⟨1, [("region", Value.id 7)]⟩ = false :=
  ⟨by decide,
   c7_missing_whitelist_attr_denied ⟨[], [], [], [("region", ["us", "eu"])], true⟩
     ⟨1, [("region", Value.id 7)]⟩ "region" ["us", "eu"] (by decide)
     (Or.inr ⟨Value.id 7, rfl, fun s hs => by cases hs⟩)⟩

theorem GoMap.mem_range_delete {α : Type} (m : GoMap α) (k : String) (e : String × α) :
    e ∈ GoMap.range (GoMap.delete m k) ↔ e ∈ GoMap.range m ∧ e.1 ≠ k := by
  obtain ⟨k1, v⟩ := e
  rw [GoMap.mem_range_iff, GoMap.mem_range_iff, GoMap.get_delete]
  by_cases h : k = k1
  · simp [h]
  · have h2 : ¬ k1 = k := fun e => h e.symm
    simp [h, h2]

/-- C8: when details[attr] is absent or not a string for an attribute name of
blMap, PublishAllowed gives the same result as for the filter with the entry
attr removed from blMap. -/
theorem c8_missing_blacklist_attr_ignored (f : simplePublishFilter) (sub : Session)
    (attr : String) (values : List String)
    (hattr : GoMap.get f.blMap attr = some values)
    (hmiss : GoMap.get sub.Details attr = none ∨
      ∃ v, GoMap.get sub.Details attr = some v ∧ ∀ s, v ≠ Value.str s) :
    PublishAllowed f sub =
      PublishAllowed { f with blMap := GoMap.delete f.blMap attr } sub := by
  have _ := hattr
  have hempty : sessAttrOf sub.Details attr = "" :=
    sessAttrOf_not_str _ _ (index_not_str_of_missing _ _ hmiss)
  have hiff : PublishAllowed f sub = true ↔
      PublishAllowed { f with blMap := GoMap.delete f.blMap attr } sub = true := by
    rw [PublishAllowed_checks, PublishAllowed_checks]
    constructor
    · rintro ⟨h1, h2, h3, h4⟩
      refine ⟨h1, h2, ?_, h4⟩
      intro e he
      exact h3 e ((GoMap.mem_range_delete _ _ _).mp he).1
    · rintro ⟨h1, h2, h3, h4⟩
      refine ⟨h1, h2, ?_, h4⟩
      intro e he
      by_cases hk : e.1 = attr
      · left
        rw [hk]
        exact hempty
      · exact h3 e ((GoMap.mem_range_delete _ _ _).mpr ⟨he, hk⟩)
  cases hp : PublishAllowed f sub with
  | true => exact (hiff.mp hp).symm
  | false =>
    cases hq : PublishAllowed { f with blMap := GoMap.delete f.blMap attr } sub with
    | false => rfl
    | true => rw [hiff.mpr hq] at hp; cases hp

/-- C8 at blMap = {role: [guest], team: [red]} and a session with no role whose
team is red: denied with and without the role entry. -/
theorem c8_missing_blacklist_attr_ignored_witness :
    GoMap.get [("role", ["guest"]), ("team", ["red"])] "role" = some ["guest"] ∧
      PublishAllowed ⟨[], [], [("role", ["guest"]), ("team", ["red"])], [], true⟩
          ⟨1, [("team", Value.str "red")]⟩ =
        PublishAllowed ⟨[], [], [("team", ["red"])], [], true⟩
          ⟨1, [("team", Value.str "red")]⟩ :=
  ⟨by decide,
   c8_missing_blacklist_attr_ignored
     ⟨[], [], [("role", ["guest"]), ("team", ["red"])], [], true⟩
     ⟨1, [("team", Value.str "red")]⟩ "role" ["guest"] (by decide) (Or.inl rfl)⟩

/-! ## The builder: `NewSimplePublishFilter` -/

theorem getIDs_none_of (v : Value) (h : NoUsableID v) : getIDs v = none := by
  unfold NoUsableID at h
  unfold getIDs
  cases hl : AsList v with
  | some l =>
    rw [hl] at h
    have hnil : l.filterMap AsID = [] := List.filterMap_eq_nil_iff.mpr h
    simp [collectIDs_eq, hnil]
  | none =>
    rw [hl] at h
    simp [h]

theorem entryVals_none_of (v : Value) (h : NoUsableString v) : entryVals v = none := by
  unfold NoUsableString at h
  cases v with
  | list l =>
    have hnil : l.filterMap nonEmptyStr = [] := List.filterMap_eq_nil_iff.mpr h
    rw [entryVals_list, if_pos hnil]
  | str s => simp [AsList, AsString] at h
  | null => simp [entryVals, AsList, AsString]
  | id n => simp [entryVals, AsList, AsString]
  | other => simp [entryVals, AsList, AsString]

theorem New_nil_of_unusable (B W : String) (opts : Dict)
    (hB : NoUsableID (Dict.index opts B)) (hW : NoUsableID (Dict.index opts W))
    (hattr : ∀ k v, GoMap.get opts k = some v →
      HasPrefix k blacklistPrefix = true ∨ HasPrefix k whitelistPrefix = true →
      NoUsableString v) :
    NewSimplePublishFilter B W opts = Run.ret none := by
  have hb : getAttrMap opts blacklistPrefix = Run.ret none :=
    getAttrMap_unusable opts _ (fun k v hg hp => entryVals_none_of v (hattr k v hg (Or.inl hp)))
  have hw : getAttrMap opts whitelistPrefix = Run.ret none :=
    getAttrMap_unusable opts _ (fun k v hg hp => entryVals_none_of v (hattr k v hg (Or.inr hp)))
  rw [New_of_attr B W opts none none hb hw, getIDs_none_of _ hB, getIDs_none_of _ hW]
  simp

/-- C2: the builder returns nil when the options bag is empty, when it has no
value under either reserved identifier key and no key starting with
"exclude_" or "eligible_", and more generally when no recognized key yields a
usable value: every identifier element unparsable (or the scalar not an
identifier), every attribute list without a non-empty string element (or the
scalar not a string). -/
theorem c2_nil_when_nothing_usable (B W : String) (opts : Dict)
    (h : opts = [] ∨
      (GoMap.get opts B = none ∧ GoMap.get opts W = none ∧
        ∀ k v, GoMap.get opts k = some v →
          HasPrefix k blacklistPrefix = false ∧ HasPrefix k whitelistPrefix = false) ∨
      (NoUsableID (Dict.index opts B) ∧ NoUsableID (Dict.index opts W) ∧
        ∀ k v, GoMap.get opts k = some v →
          HasPrefix k blacklistPrefix = true ∨ HasPrefix k whitelistPrefix = true →
          NoUsableString v)) :
    NewSimplePublishFilter B W opts = Run.ret none := by
  rcases h with h | ⟨hB, hW, hk⟩ | ⟨hB, hW, hk⟩
  · subst h
    rfl
  · apply New_nil_of_unusable
    · simp [Dict.index, hB, NoUsableID, AsList, AsID]
    · simp [Dict.index, hW, NoUsableID, AsList, AsID]
    · intro k v hg hp
      have := hk k v hg
      rcases hp with hp | hp
      · rw [this.1] at hp; cases hp
      · rw [this.2] at hp; cases hp
  · exact New_nil_of_unusable B W opts hB hW hk

/-- C2 at a bag whose identifier list holds only strings, whose attribute list
holds a number and an empty string, and whose other attribute value is
neither a list nor a string. -/
theorem c2_nil_when_nothing_usable_witness :
    NewSimplePublishFilter "exclude" "eligible"
      [("exclude", Value.list [Value.str "x", Value.other]),
       ("exclude_role", Value.list [Value.id 3, Value.str ""]),
       ("eligible_region", Value.other),
       ("acknowledge", Value.str "yes")] = Run.ret none :=
  c2_nil_when_nothing_usable "exclude" "eligible"
    [("exclude", Value.list [Value.str "x", Value.other]),
     ("exclude_role", Value.list [Value.id 3, Value.str ""]),
     ("eligible_region", Value.other),
     ("acknowledge", Value.str "yes")]
    (Or.inr (Or.inr ⟨by
      show ∀ x ∈ [Value.str "x", Value.other], AsID x = none
      simp [AsID], by
      show AsID Value.null = none
      rfl, by
      intro k v hg hp
      simp only [GoMap.get] at hg
      split at hg
      · rename_i hk
        subst hk
        exact absurd hp (by decide)
      · split at hg
        · cases hg
          show ∀ x ∈ [Value.id 3, Value.str ""], nonEmptyStr x = none
          simp [nonEmptyStr]
        · split at hg
          · cases hg
            rfl
          · split at hg
            · rename_i hk
              subst hk
              exact absurd hp (by decide)
            · cases hg⟩))

/-- C3: a filter the builder returns has at least one of blIDs, wlIDs, blMap,
wlMap non-empty, and no value list stored in blMap or wlMap is empty. -/
theorem c3_built_filter_nonempty (B W : String) (opts : Dict) (f : simplePublishFilter)
    (h : NewSimplePublishFilter B W opts = Run.ret (some f)) :
    (f.blIDs ≠ [] ∨ f.wlIDs ≠ [] ∨ f.blMap ≠ [] ∨ f.wlMap ≠ []) ∧
      (∀ attr values,
        GoMap.get f.blMap attr = some values ∨ GoMap.get f.wlMap attr = some values →
        values ≠ []) := by
  obtain ⟨bl, wl, hb, hw, hc, hf⟩ := New_some B W opts f h
  subst hf
  have hbok := getAttrMap_ok opts _ bl hb
  have hwok := getAttrMap_ok opts _ wl hw
  constructor
  · simp only [Bool.and_eq_false_iff] at hc
    rcases hc with ((hc | hc) | hc) | hc
    · exact Or.inl (getIDs_getD_ne_nil _ hc)
    · exact Or.inr (Or.inl (getIDs_getD_ne_nil _ hc))
    · exact Or.inr (Or.inr (Or.inl (AttrMapOK_getD_ne_nil bl hbok hc)))
    · exact Or.inr (Or.inr (Or.inr (AttrMapOK_getD_ne_nil wl hwok hc)))
  · rintro attr values (hg | hg)
    · exact AttrMapOK_vals bl hbok attr values hg
    · exact AttrMapOK_vals wl hwok attr values hg

/-- C3 at a bag with a whitelisted identifier and a scalar attribute entry. -/
theorem c3_built_filter_nonempty_witness :
    NewSimplePublishFilter "exclude" "eligible"
        [("eligible", Value.id 6), ("exclude_role", Value.str "guest")] =
      Run.ret (some ⟨[], [6], [("role", ["guest"])], [], true⟩) ∧
    ((([] : List ID) ≠ [] ∨ ([6] : List ID) ≠ [] ∨
        ([("role", ["guest"])] : GoMap (List String)) ≠ [] ∨
        ([] : GoMap (List String)) ≠ []) ∧
      (∀ attr values,
        GoMap.get [("role", ["guest"])] attr = some values ∨
          GoMap.get ([] : GoMap (List String)) attr = some values →
        values ≠ [])) :=
  ⟨by decide,
   c3_built_filter_nonempty "exclude" "eligible"
     [("eligible", Value.id 6), ("exclude_role", Value.str "guest")]
     ⟨[], [6], [("role", ["guest"])], [], true⟩ (by decide)⟩

/-- C4: for a filter the builder returns, LockRequired is true if and only if
blMap or wlMap is non-empty; in particular it is false when every entry of
the options bag sits under a reserved identifier key, none of them an
attribute key. -/
theorem c4_lockRequired_iff_attr_maps (B W : String) (opts : Dict) (f : simplePublishFilter)
    (h : NewSimplePublishFilter B W opts = Run.ret (some f)) :
    (LockRequired f = true ↔ (f.blMap ≠ [] ∨ f.wlMap ≠ [])) ∧
      ((∀ k v, GoMap.get opts k = some v →
          (k = B ∨ k = W) ∧
            HasPrefix k blacklistPrefix = false ∧ HasPrefix k whitelistPrefix = false) →
        LockRequired f = false) := by
  obtain ⟨bl, wl, hb, hw, _, hf⟩ := New_some B W opts f h
  subst hf
  constructor
  · simp [LockRequired, GoMap.len_eq_zero_iff]
  · intro honly
    have hb2 : getAttrMap opts blacklistPrefix = Run.ret none :=
      getAttrMap_unusable opts _ (fun k v hg hp => by
        rw [(honly k v hg).2.1] at hp
        cases hp)
    have hw2 : getAttrMap opts whitelistPrefix = Run.ret none :=
      getAttrMap_unusable opts _ (fun k v hg hp => by
        rw [(honly k v hg).2.2] at hp
        cases hp)
    rw [hb2] at hb
    rw [hw2] at hw
    cases hb
    cases hw
    rfl

/-- C4 at a bag that carries an identifier blacklist and nothing else. -/
theorem c4_lockRequired_iff_attr_maps_witness :
    NewSimplePublishFilter "exclude" "eligible"
        [("exclude", Value.list [Value.id 5, Value.id 9])] =
      Run.ret (some ⟨[5, 9], [], [], [], false⟩) ∧
    (LockRequired ⟨[5, 9], [], [], [], false⟩ = true ↔
        (([] : GoMap (List String)) ≠ [] ∨ ([] : GoMap (List String)) ≠ [])) ∧
    LockRequired ⟨[5, 9], [], [], [], false⟩ = false :=
  have hc := c4_lockRequired_iff_attr_maps "exclude" "eligible"
    [("exclude", Value.list [Value.id 5, Value.id 9])]
    ⟨[5, 9], [], [], [], false⟩ (by decide)
  ⟨by decide, hc.1, hc.2 (by
    intro k v hg
    simp only [GoMap.get] at hg
    split at hg
    · rename_i hk
      subst hk
      exact ⟨Or.inl rfl, by decide, by decide⟩
    · cases hg)⟩

theorem AsList_eq_some (v : Value) (l : List Value) (h : AsList v = some l) :
    v = Value.list l := by
  cases v <;> simp [AsList] at h
  rw [h]

theorem getIDs_of_list (v : Value) (l : List Value) (h : AsList v = some l) :
    (getIDs v).getD [] = l.filterMap AsID := by
  rw [AsList_eq_some v l h]
  exact getIDs_list l

theorem getIDs_of_scalar (v : Value) (x : ID) (hl : AsList v = none) (h : AsID v = some x) :
    (getIDs v).getD [] = [x] := by
  simp [getIDs, hl, h, goAppend]

theorem filterMap_AsID_insert (l1 l2 : List Value) (v : Value) (h : AsID v = none) :
    (l1 ++ v :: l2).filterMap AsID = (l1 ++ l2).filterMap AsID := by
  simp [List.filterMap_append, List.filterMap_cons, h]

/-- C9: in a built filter, blIDs (resp. wlIDs) is the sequence of the
identifiers that the elements of the list under the reserved blacklist key
(resp. whitelist key) parse to, in list order, so a second bag whose list
differs by one unparsable element builds the same identifier list; a scalar
identifier under the key builds the one-element list. -/
theorem c9_built_id_lists (B W : String) (opts : Dict) (f : simplePublishFilter)
    (h : NewSimplePublishFilter B W opts = Run.ret (some f)) :
    (∀ l, AsList (Dict.index opts B) = some l → f.blIDs = l.filterMap AsID) ∧
    (∀ l, AsList (Dict.index opts W) = some l → f.wlIDs = l.filterMap AsID) ∧
    (∀ x, AsList (Dict.index opts B) = none → AsID (Dict.index opts B) = some x →
      f.blIDs = [x]) ∧
    (∀ x, AsList (Dict.index opts W) = none → AsID (Dict.index opts W) = some x →
      f.wlIDs = [x]) ∧
    (∀ (opts2 : Dict) (f2 : simplePublishFilter) (l1 l2 : List Value) (v : Value),
      NewSimplePublishFilter B W opts2 = Run.ret (some f2) → AsID v = none →
      (AsList (Dict.index opts B) = some (l1 ++ v :: l2) →
        AsList (Dict.index opts2 B) = some (l1 ++ l2) → f.blIDs = f2.blIDs) ∧
      (AsList (Dict.index opts W) = some (l1 ++ v :: l2) →
        AsList (Dict.index opts2 W) = some (l1 ++ l2) → f.wlIDs = f2.wlIDs)) := by
  obtain ⟨bl, wl, _, _, _, hf⟩ := New_some B W opts f h
  subst hf
  refine ⟨fun l hl => getIDs_of_list _ l hl, fun l hl => getIDs_of_list _ l hl,
    fun x hl hx => getIDs_of_scalar _ x hl hx, fun x hl hx => getIDs_of_scalar _ x hl hx, ?_⟩
  intro opts2 f2 l1 l2 v h2 hv
  obtain ⟨bl2, wl2, _, _, _, hf2⟩ := New_some B W opts2 f2 h2
  subst hf2
  constructor
  · intro ha hb
    show (getIDs (Dict.index opts B)).getD [] = (getIDs (Dict.index opts2 B)).getD []
    rw [getIDs_of_list _ _ ha, getIDs_of_list _ _ hb, filterMap_AsID_insert l1 l2 v hv]
  · intro ha hb
    show (getIDs (Dict.index opts W)).getD [] = (getIDs (Dict.index opts2 W)).getD []
    rw [getIDs_of_list _ _ ha, getIDs_of_list _ _ hb, filterMap_AsID_insert l1 l2 v hv]

/-- C9 at a blacklist [5, "x", 9] and a scalar whitelist 7, against the same
bag with the unparsable "x" removed. -/
theorem c9_built_id_lists_witness :
    NewSimplePublishFilter "exclude" "eligible"
        [("exclude", Value.list [Value.id 5, Value.str "x", Value.id 9]),
         ("eligible", Value.id 7)] =
      Run.ret (some ⟨[5, 9], [7], [], [], false⟩) ∧
    ([5, 9] : List ID) = [Value.id 5, Value.str "x", Value.id 9].filterMap AsID ∧
    ([7] : List ID) = [7] ∧
    ([5, 9] : List ID) = (⟨[5, 9], [7], [], [], false⟩ : simplePublishFilter).blIDs :=
  have hc := c9_built_id_lists "exclude" "eligible"
    [("exclude", Value.list [Value.id 5, Value.str "x", Value.id 9]),
     ("eligible", Value.id 7)]
    ⟨[5, 9], [7], [], [], false⟩ (by decide)
  ⟨by decide, hc.1 _ rfl, hc.2.2.2.1 7 rfl rfl,
   (hc.2.2.2.2
      [("exclude", Value.list [Value.id 5, Value.id 9]), ("eligible", Value.id 7)]
      ⟨[5, 9], [7], [], [], false⟩ [Value.id 5] [Value.id 9] (Value.str "x")
      (by decide) rfl).1 rfl rfl⟩

theorem getAttrMap_get_list (opts : Dict) (pfx attr : String) (v : Value) (l : List Value)
    (r : Option (GoMap (List String))) (hr : getAttrMap opts pfx = Run.ret r)
    (hv : AsList v = some l) (hk : GoMap.get opts (pfx ++ attr) = some v) :
    GoMap.get (r.getD []) attr =
      if l.filterMap nonEmptyStr = [] then none else some (l.filterMap nonEmptyStr) := by
  rw [getAttrMap_get opts pfx r hr attr, hk, AsList_eq_some v l hv]
  exact entryVals_list l

theorem isNone_of_get_some (r : Option (GoMap (List String))) (a : String) (vl : List String)
    (h : GoMap.get (r.getD []) a = some vl) : r.isNone = false := by
  cases r with
  | none => simp [GoMap.get] at h
  | some m => rfl

theorem len_ne_zero_of_get {α : Type} (m : GoMap α) (k : String) (v : α)
    (h : GoMap.get m k = some v) : (GoMap.len m == 0) = false := by
  cases m with
  | nil => simp [GoMap.get] at h
  | cons e rest =>
    obtain ⟨k1, v1⟩ := e
    simp [GoMap.len, GoMap.range]

/-- C10: for a key "exclude_" ++ attr (resp. "eligible_" ++ attr) whose value
is a list, if the list has a non-empty string element then the builder
returns a filter in which blMap[attr] (resp. wlMap[attr]) is the sequence of
the list's non-empty string elements in list order; otherwise attr is not a
key of that map in any filter the builder returns. -/
theorem c10_built_attr_lists (B W : String) (opts : Dict) (attr : String) (v : Value)
    (l : List Value) (hv : AsList v = some l) :
    (GoMap.get opts (blacklistPrefix ++ attr) = some v →
      (l.filterMap nonEmptyStr ≠ [] →
        ∃ f, NewSimplePublishFilter B W opts = Run.ret (some f) ∧
          GoMap.get f.blMap attr = some (l.filterMap nonEmptyStr)) ∧
      (l.filterMap nonEmptyStr = [] →
        ∀ f, NewSimplePublishFilter B W opts = Run.ret (some f) →
          GoMap.get f.blMap attr = none)) ∧
    (GoMap.get opts (whitelistPrefix ++ attr) = some v →
      (l.filterMap nonEmptyStr ≠ [] →
        ∃ f, NewSimplePublishFilter B W opts = Run.ret (some f) ∧
          GoMap.get f.wlMap attr = some (l.filterMap nonEmptyStr)) ∧
      (l.filterMap nonEmptyStr = [] →
        ∀ f, NewSimplePublishFilter B W opts = Run.ret (some f) →
          GoMap.get f.wlMap attr = none)) := by
  obtain ⟨bl, hb⟩ := getAttrMap_total opts blacklistPrefix
  obtain ⟨wl, hw⟩ := getAttrMap_total opts whitelistPrefix
  have hnew := New_of_attr B W opts bl wl hb hw
  constructor
  · intro hk
    have hget := getAttrMap_get_list opts _ attr v l bl hb hv hk
    constructor
    · intro hne
      rw [if_neg hne] at hget
      rw [len_ne_zero_of_get opts _ v hk, isNone_of_get_some bl attr _ hget] at hnew
      simp only [Bool.false_eq_true, if_false, Bool.and_false, Bool.false_and] at hnew
      exact ⟨_, hnew, hget⟩
    · intro hnil f hf
      rw [if_pos hnil] at hget
      obtain ⟨bl2, wl2, hb2, _, _, hf2⟩ := New_some B W opts f hf
      rw [hb] at hb2
      cases hb2
      subst hf2
      exact hget
  · intro hk
    have hget := getAttrMap_get_list opts _ attr v l wl hw hv hk
    constructor
    · intro hne
      rw [if_neg hne] at hget
      rw [len_ne_zero_of_get opts _ v hk, isNone_of_get_some wl attr _ hget] at hnew
      simp only [Bool.false_eq_true, if_false, Bool.and_false] at hnew
      exact ⟨_, hnew, hget⟩
    · intro hnil f hf
      rw [if_pos hnil] at hget
      obtain ⟨bl2, wl2, _, hw2, _, hf2⟩ := New_some B W opts f hf
      rw [hw] at hw2
      cases hw2
      subst hf2
      exact hget

/-- C10 at the key exclude_role with the list ["guest", 3, "", "bot"], in a
bag that also holds eligible_region. -/
theorem c10_built_attr_lists_witness :
    AsList (Value.list [Value.str "guest", Value.id 3, Value.str "", Value.str "bot"]) =
      some [Value.str "guest", Value.id 3, Value.str "", Value.str "bot"] ∧
    ∃ f, NewSimplePublishFilter "exclude" "eligible"
        [("exclude_role",
            Value.list [Value.str "guest", Value.id 3, Value.str "", Value.str "bot"]),
         ("eligible_region", Value.list [Value.str "us"])] = Run.ret (some f) ∧
      GoMap.get f.blMap "role" =
        some ([Value.str "guest", Value.id 3, Value.str "", Value.str "bot"].filterMap
          nonEmptyStr) :=
  ⟨rfl,
   ((c10_built_attr_lists "exclude" "eligible"
      [("exclude_role",
          Value.list [Value.str "guest", Value.id 3, Value.str "", Value.str "bot"]),
       ("eligible_region", Value.list [Value.str "us"])]
      "role" (Value.list [Value.str "guest", Value.id 3, Value.str "", Value.str "bot"])
      [Value.str "guest", Value.id 3, Value.str "", Value.str "bot"] rfl).1 rfl).1
    (by decide)⟩

/-! ## The builder: scalar attribute values and totality -/

theorem entryVals_scalar (v : Value) (s : String) (hl : AsList v = none)
    (hs : AsString v = (s, true)) : entryVals v = some [s] := by
  simp [entryVals, hl, hs]

theorem New_attr_entry_bl (B W : String) (opts : Dict) (attr : String) (v : Value)
    (vl : List String) (hk : GoMap.get opts (blacklistPrefix ++ attr) = some v)
    (he : entryVals v = some vl) :
    ∃ f, NewSimplePublishFilter B W opts = Run.ret (some f) ∧
      GoMap.get f.blMap attr = some vl := by
  obtain ⟨bl, hb⟩ := getAttrMap_total opts blacklistPrefix
  obtain ⟨wl, hw⟩ := getAttrMap_total opts whitelistPrefix
  have hnew := New_of_attr B W opts bl wl hb hw
  have hget : GoMap.get (bl.getD []) attr = some vl := by
    rw [getAttrMap_get opts _ bl hb attr, hk]
    exact he
  rw [len_ne_zero_of_get opts _ v hk, isNone_of_get_some bl attr _ hget] at hnew
  simp only [Bool.false_eq_true, if_false, Bool.and_false, Bool.false_and] at hnew
  exact ⟨_, hnew, hget⟩

theorem New_attr_entry_wl (B W : String) (opts : Dict) (attr : String) (v : Value)
    (vl : List String) (hk : GoMap.get opts (whitelistPrefix ++ attr) = some v)
    (he : entryVals v = some vl) :
    ∃ f, NewSimplePublishFilter B W opts = Run.ret (some f) ∧
      GoMap.get f.wlMap attr = some vl := by
  obtain ⟨bl, hb⟩ := getAttrMap_total opts blacklistPrefix
  obtain ⟨wl, hw⟩ := getAttrMap_total opts whitelistPrefix
  have hnew := New_of_attr B W opts bl wl hb hw
  have hget : GoMap.get (wl.getD []) attr = some vl := by
    rw [getAttrMap_get opts _ wl hw attr, hk]
    exact he
  rw [len_ne_zero_of_get opts _ v hk, isNone_of_get_some wl attr _ hget] at hnew
  simp only [Bool.false_eq_true, if_false, Bool.and_false] at hnew
  exact ⟨_, hnew, hget⟩

/-- C11 (the code at the failing input): the scalar empty string under
exclude_a is stored as the value list [""], and the builder returns a filter
that requires the lock, where the claim has the key dropped and nil
returned. -/
theorem c11_scalar_empty_string_kept :
    NewSimplePublishFilter "exclude" "eligible" [("exclude_a", Value.str "")] =
      Run.ret (some ⟨[], [], [("a", [""])], [], true⟩) := by
  decide

/-- C12: for a key "exclude_" ++ attr (resp. "eligible_" ++ attr) whose value
is a scalar string s and not a list, the builder returns a filter in which
blMap[attr] (resp. wlMap[attr]) is the one-element list [s]. -/
theorem c12_scalar_string_entry (B W : String) (opts : Dict) (attr : String) (v : Value)
    (s : String) (hl : AsList v = none) (hs : AsString v = (s, true)) :
    (GoMap.get opts (blacklistPrefix ++ attr) = some v →
      ∃ f, NewSimplePublishFilter B W opts = Run.ret (some f) ∧
        GoMap.get f.blMap attr = some [s]) ∧
    (GoMap.get opts (whitelistPrefix ++ attr) = some v →
      ∃ f, NewSimplePublishFilter B W opts = Run.ret (some f) ∧
        GoMap.get f.wlMap attr = some [s]) :=
  ⟨fun hk => New_attr_entry_bl B W opts attr v [s] hk (entryVals_scalar v s hl hs),
   fun hk => New_attr_entry_wl B W opts attr v [s] hk (entryVals_scalar v s hl hs)⟩

/-- C12 at eligible_region with the scalar string "us", in a bag that also
holds an identifier blacklist. -/
theorem c12_scalar_string_entry_witness :
    AsList (Value.str "us") = none ∧ AsString (Value.str "us") = ("us", true) ∧
    ∃ f, NewSimplePublishFilter "exclude" "eligible"
        [("exclude", Value.id 4), ("eligible_region", Value.str "us")] =
          Run.ret (some f) ∧
      GoMap.get f.wlMap "region" = some ["us"] :=
  ⟨rfl, rfl,
   (c12_scalar_string_entry "exclude" "eligible"
      [("exclude", Value.id 4), ("eligible_region", Value.str "us")]
      "region" (Value.str "us") "us" rfl rfl).2 rfl⟩

/-- C16: the builder always returns, nil or a filter, and never panics; the
slice k[len(p):] is in range whenever k starts with p, and p followed by the
slice is k again. -/
theorem c16_builder_total (B W : String) (opts : Dict) :
    (∃ r, NewSimplePublishFilter B W opts = Run.ret r) ∧
      (∀ k p : String, HasPrefix k p = true →
        ∃ a, sliceFrom k p.length = Run.ret a ∧ p ++ a = k) := by
  constructor
  · obtain ⟨bl, hb⟩ := getAttrMap_total opts blacklistPrefix
    obtain ⟨wl, hw⟩ := getAttrMap_total opts whitelistPrefix
    rw [New_of_attr B W opts bl wl hb hw]
    split
    · exact ⟨_, rfl⟩
    · split
      · exact ⟨_, rfl⟩
      · exact ⟨_, rfl⟩
  · intro k p hp
    obtain ⟨a, rfl⟩ := (HasPrefix_iff k p).mp hp
    exact ⟨a, sliceFrom_append p a, rfl⟩

theorem sliceFrom_out_of_range : sliceFrom "ab" 5 = Run.panic := by decide

/-! ## End to end: one entry in the options bag -/

theorem exclude_key_not_eligible (a : String) :
    HasPrefix (blacklistPrefix ++ a) whitelistPrefix = false := by
  show List.isPrefixOf "eligible_".data ("exclude_".data ++ a.data) = false
  rfl

theorem eligible_key_not_exclude (a : String) :
    HasPrefix (whitelistPrefix ++ a) blacklistPrefix = false := by
  show List.isPrefixOf "exclude_".data ("eligible_".data ++ a.data) = false
  rfl

theorem getAttrMap_single_keyed (pfx a : String) (v : Value) (vl : List String)
    (he : entryVals v = some vl) :
    getAttrMap [(pfx ++ a, v)] pfx = Run.ret (some [(a, vl)]) := by
  simp [getAttrMap, GoMap.range, GoMap.delete, attrLoop, attrStep_keyed, he, Run.bind,
    GoMap.set]

theorem getAttrMap_single_skip (pfx k : String) (v : Value)
    (h : HasPrefix k pfx = false ∨ entryVals v = none) :
    getAttrMap [(k, v)] pfx = Run.ret none := by
  apply getAttrMap_unusable
  intro k1 v1 hg hp
  simp only [GoMap.get] at hg
  split at hg
  · rename_i hk
    cases hg
    subst hk
    rcases h with h | h
    · rw [h] at hp
      cases hp
    · exact h
  · cases hg

theorem index_single (k k1 : String) (v : Value) :
    Dict.index [(k, v)] k1 = v ∨ Dict.index [(k, v)] k1 = Value.null := by
  by_cases h : k = k1
  · left
    simp [Dict.index, GoMap.get, h]
  · right
    simp [Dict.index, GoMap.get, h]

theorem getIDs_null : getIDs Value.null = none := rfl

theorem getIDs_str (s : String) : getIDs (Value.str s) = none := rfl

theorem filterMap_AsID_str (L : List String) : (L.map Value.str).filterMap AsID = [] := by
  induction L with
  | nil => rfl
  | cons s L ih => simp [List.filterMap_cons, AsID, ih]

theorem filterMap_AsID_id (L : List ID) : (L.map Value.id).filterMap AsID = L := by
  induction L with
  | nil => rfl
  | cons s L ih => simp [List.filterMap_cons, AsID, ih]

theorem filterMap_nonEmptyStr_id (L : List ID) :
    (L.map Value.id).filterMap nonEmptyStr = [] := by
  induction L with
  | nil => rfl
  | cons s L ih => simp [List.filterMap_cons, nonEmptyStr, ih]

theorem filterMap_nonEmptyStr_str (L : List String) (h : ∀ s ∈ L, s ≠ "") :
    (L.map Value.str).filterMap nonEmptyStr = L := by
  induction L with
  | nil => rfl
  | cons s L ih =>
    have hs : s ≠ "" := h s (List.mem_cons_self _ _)
    have hL : ∀ s ∈ L, s ≠ "" := fun x hx => h x (List.mem_cons_of_mem _ hx)
    simp [List.filterMap_cons, nonEmptyStr, hs, ih hL]

theorem getIDs_strs (L : List String) : getIDs (Value.list (L.map Value.str)) = none := by
  simp only [getIDs, AsList, collectIDs_eq, filterMap_AsID_str, if_true]

theorem getIDs_ids (L : List ID) (h : L ≠ []) :
    getIDs (Value.list (L.map Value.id)) = some L := by
  simp only [getIDs, AsList, collectIDs_eq, filterMap_AsID_id, if_neg h, Option.getD_none,
    List.nil_append]

/-- The builder on the bag whose only entry is a scalar string under an
exclude key. -/
theorem New_single_exclude (B W a v : String) :
    NewSimplePublishFilter B W [(blacklistPrefix ++ a, Value.str v)] =
      Run.ret (some ⟨[], [], [(a, [v])], [], true⟩) := by
  have hb := getAttrMap_single_keyed blacklistPrefix a (Value.str v) [v] rfl
  have hw := getAttrMap_single_skip whitelistPrefix (blacklistPrefix ++ a) (Value.str v)
    (Or.inl (exclude_key_not_eligible a))
  have hB : getIDs (Dict.index [(blacklistPrefix ++ a, Value.str v)] B) = none := by
    rcases index_single (blacklistPrefix ++ a) B (Value.str v) with h | h <;> rw [h] <;> rfl
  have hW : getIDs (Dict.index [(blacklistPrefix ++ a, Value.str v)] W) = none := by
    rcases index_single (blacklistPrefix ++ a) W (Value.str v) with h | h <;> rw [h] <;> rfl
  rw [New_of_attr B W _ _ _ hb hw, hB, hW]
  simp [GoMap.len, GoMap.range, GoMap.delete]

/-- The builder on the bag whose only entry is a list of non-empty strings
under an eligible key. -/
theorem New_single_eligible (B W a : String) (L : List String) (hne : L ≠ [])
    (hL : ∀ s ∈ L, s ≠ "") :
    NewSimplePublishFilter B W [(whitelistPrefix ++ a, Value.list (L.map Value.str))] =
      Run.ret (some ⟨[], [], [], [(a, L)], true⟩) := by
  have he : entryVals (Value.list (L.map Value.str)) = some L := by
    rw [entryVals_list, filterMap_nonEmptyStr_str L hL, if_neg hne]
  have hw := getAttrMap_single_keyed whitelistPrefix a _ L he
  have hb := getAttrMap_single_skip blacklistPrefix (whitelistPrefix ++ a)
    (Value.list (L.map Value.str)) (Or.inl (eligible_key_not_exclude a))
  have hB : getIDs (Dict.index [(whitelistPrefix ++ a, Value.list (L.map Value.str))] B) =
      none := by
    rcases index_single (whitelistPrefix ++ a) B (Value.list (L.map Value.str)) with h | h
    · rw [h]
      exact getIDs_strs L
    · rw [h]
      rfl
  have hW : getIDs (Dict.index [(whitelistPrefix ++ a, Value.list (L.map Value.str))] W) =
      none := by
    rcases index_single (whitelistPrefix ++ a) W (Value.list (L.map Value.str)) with h | h
    · rw [h]
      exact getIDs_strs L
    · rw [h]
      rfl
  rw [New_of_attr B W _ _ _ hb hw, hB, hW]
  simp [GoMap.len, GoMap.range, GoMap.delete]

/-- The builder on the bag whose only entry is a list of identifiers under
the reserved whitelist key. -/
theorem New_single_whitelist (B W : String) (L : List ID) (hBW : B ≠ W) (hne : L ≠ []) :
    NewSimplePublishFilter B W [(W, Value.list (L.map Value.id))] =
      Run.ret (some ⟨[], L, [], [], false⟩) := by
  have he : entryVals (Value.list (L.map Value.id)) = none := by
    rw [entryVals_list, filterMap_nonEmptyStr_id L, if_pos rfl]
  have hb := getAttrMap_single_skip blacklistPrefix W (Value.list (L.map Value.id)) (Or.inr he)
  have hw := getAttrMap_single_skip whitelistPrefix W (Value.list (L.map Value.id)) (Or.inr he)
  have hB : getIDs (Dict.index [(W, Value.list (L.map Value.id))] B) = none := by
    have hWB : ¬ W = B := fun e => hBW e.symm
    simp [Dict.index, GoMap.get, hWB, getIDs_null]
  have hW : getIDs (Dict.index [(W, Value.list (L.map Value.id))] W) = some L := by
    simp only [Dict.index, GoMap.get, if_true, Option.getD_some]
    exact getIDs_ids L hne
  rw [New_of_attr B W _ _ _ hb hw, hB, hW]
  simp [GoMap.len, GoMap.range]

theorem PublishAllowed_single_bl (a v : String) (sub : Session) :
    PublishAllowed ⟨[], [], [(a, [v])], [], true⟩ sub = true ↔
      (sessAttrOf sub.Details a = "" ∨ sessAttrOf sub.Details a ≠ v) := by
  rw [PublishAllowed_checks]
  simp [GoMap.range, GoMap.delete]

theorem PublishAllowed_single_wl (a : String) (L : List String) (sub : Session) :
    PublishAllowed ⟨[], [], [], [(a, L)], true⟩ sub = true ↔
      (sessAttrOf sub.Details a ≠ "" ∧ sessAttrOf sub.Details a ∈ L) := by
  rw [PublishAllowed_checks]
  simp [GoMap.range, GoMap.delete]

theorem PublishAllowed_only_wlIDs (L : List ID) (sub : Session) (hne : L ≠ []) :
    PublishAllowed ⟨[], L, [], [], false⟩ sub = true ↔ sub.ID ∈ L := by
  rw [PublishAllowed_checks]
  simp [GoMap.range, hne]

theorem eq_false_of_not_true (b : Bool) (h : ¬ b = true) : b = false := by
  cases b with
  | false => rfl
  | true => exact absurd rfl h

theorem sessAttrOf_missing (details : Dict) (a : String) (h : GoMap.get details a = none) :
    sessAttrOf details a = "" := by
  simp [sessAttrOf, Dict.index, h, AsString]

/-- C13: for a non-empty string v, the filter built from the bag whose only
entry maps "exclude_" ++ a to the scalar string v denies every session with
details[a] = v, allows every session whose details[a] is another string, and
allows every session with no a in its details. -/
theorem c13_exclude_scalar_end_to_end (B W a v : String) (hv : v ≠ "") :
    ∃ f, NewSimplePublishFilter B W [(blacklistPrefix ++ a, Value.str v)] =
        Run.ret (some f) ∧
      (∀ sub : Session, Dict.index sub.Details a = Value.str v →
        PublishAllowed f sub = false) ∧
      (∀ (sub : Session) (s : String), Dict.index sub.Details a = Value.str s → s ≠ v →
        PublishAllowed f sub = true) ∧
      (∀ sub : Session, GoMap.get sub.Details a = none → PublishAllowed f sub = true) := by
  refine ⟨_, New_single_exclude B W a v, ?_, ?_, ?_⟩
  · intro sub hd
    apply eq_false_of_not_true
    rw [PublishAllowed_single_bl, sessAttrOf_str _ _ _ hd]
    rintro (h | h)
    · exact hv h
    · exact h rfl
  · intro sub s hd hs
    rw [PublishAllowed_single_bl, sessAttrOf_str _ _ _ hd]
    exact Or.inr hs
  · intro sub hd
    rw [PublishAllowed_single_bl]
    exact Or.inl (sessAttrOf_missing _ _ hd)

/-- C13 at exclude_role = "guest" with a guest, an admin and a session
without a role. -/
theorem c13_exclude_scalar_end_to_end_witness :
    "guest" ≠ "" ∧
    ∃ f, NewSimplePublishFilter "exclude" "eligible" [("exclude_role", Value.str "guest")] =
        Run.ret (some f) ∧
      PublishAllowed f ⟨1, [("role", Value.str "guest")]⟩ = false ∧
      PublishAllowed f ⟨2, [("role", Value.str "admin")]⟩ = true ∧
      PublishAllowed f ⟨3, []⟩ = true :=
  ⟨by decide,
   match c13_exclude_scalar_end_to_end "exclude" "eligible" "role" "guest" (by decide) with
   | ⟨f, hf, h1, h2, h3⟩ =>
     ⟨f, hf, h1 ⟨1, [("role", Value.str "guest")]⟩ rfl,
      h2 ⟨2, [("role", Value.str "admin")]⟩ "admin" rfl (by decide),
      h3 ⟨3, []⟩ rfl⟩⟩

/-- C14: for a non-empty list L of non-empty strings, the filter built from
the bag whose only entry maps "eligible_" ++ a to L allows a session if and
only if details[a] is a string that occurs in L; a session with no a in its
details is denied. -/
theorem c14_eligible_list_end_to_end (B W a : String) (L : List String) (hne : L ≠ [])
    (hL : ∀ s ∈ L, s ≠ "") :
    ∃ f, NewSimplePublishFilter B W [(whitelistPrefix ++ a, Value.list (L.map Value.str))] =
        Run.ret (some f) ∧
      (∀ sub : Session, PublishAllowed f sub = true ↔
        ∃ s, Dict.index sub.Details a = Value.str s ∧ s ∈ L) ∧
      (∀ sub : Session, GoMap.get sub.Details a = none → PublishAllowed f sub = false) := by
  refine ⟨_, New_single_eligible B W a L hne hL, ?_, ?_⟩
  · intro sub
    rw [PublishAllowed_single_wl]
    constructor
    · rintro ⟨h1, h2⟩
      exact ⟨_, sessAttrOf_ne_empty _ _ h1, h2⟩
    · rintro ⟨s, hs, hmem⟩
      rw [sessAttrOf_str _ _ _ hs]
      exact ⟨hL s hmem, hmem⟩
  · intro sub hd
    apply eq_false_of_not_true
    rw [PublishAllowed_single_wl]
    rintro ⟨h1, _⟩
    exact h1 (sessAttrOf_missing _ _ hd)

/-- C14 at eligible_region = ["us", "eu"] with sessions in us, in ap and
without a region. -/
theorem c14_eligible_list_end_to_end_witness :
    ["us", "eu"] ≠ ([] : List String) ∧ (∀ s ∈ ["us", "eu"], s ≠ "") ∧
    ∃ f, NewSimplePublishFilter "exclude" "eligible"
        [("eligible_region", Value.list [Value.str "us", Value.str "eu"])] =
          Run.ret (some f) ∧
      PublishAllowed f ⟨1, [("region", Value.str "us")]⟩ = true ∧
      ¬ PublishAllowed f ⟨2, [("region", Value.str "ap")]⟩ = true ∧
      PublishAllowed f ⟨3, []⟩ = false :=
  ⟨by decide, by decide,
   match c14_eligible_list_end_to_end "exclude" "eligible" "region" ["us", "eu"]
     (by decide) (by decide) with
   | ⟨f, hf, h1, h2⟩ =>
     ⟨f, hf, (h1 ⟨1, [("region", Value.str "us")]⟩).mpr ⟨"us", rfl, by decide⟩,
      fun h => by
        obtain ⟨s, hs, hmem⟩ := (h1 ⟨2, [("region", Value.str "ap")]⟩).mp h
        have hs2 : Value.str "ap" = Value.str s := hs
        cases hs2
        revert hmem
        decide,
      h2 ⟨3, []⟩ rfl⟩⟩

/-- C15: for a non-empty list L of identifiers, the filter built from the bag
whose only entry maps the reserved whitelist key to L allows a session if and
only if the session id occurs in L, whatever the session details are; the
two reserved keys are distinct. -/
theorem c15_whitelist_ids_end_to_end (B W : String) (L : List ID) (hBW : B ≠ W)
    (hne : L ≠ []) :
    ∃ f, NewSimplePublishFilter B W [(W, Value.list (L.map Value.id))] = Run.ret (some f) ∧
      ∀ sub : Session, PublishAllowed f sub = true ↔ sub.ID ∈ L :=
  ⟨_, New_single_whitelist B W L hBW hne, fun sub => PublishAllowed_only_wlIDs L sub hne⟩

/-- C15 at the whitelist [101, 102] with sessions 101 and 103. -/
theorem c15_whitelist_ids_end_to_end_witness :
    "exclude" ≠ "eligible" ∧ ([101, 102] : List ID) ≠ [] ∧
    ∃ f, NewSimplePublishFilter "exclude" "eligible"
        [("eligible", Value.list [Value.id 101, Value.id 102])] = Run.ret (some f) ∧
      PublishAllowed f ⟨101, [("role", Value.str "guest")]⟩ = true ∧
      ¬ PublishAllowed f ⟨103, []⟩ = true :=
  ⟨by decide, by decide,
   match c15_whitelist_ids_end_to_end "exclude" "eligible" [101, 102]
     (by decide) (by decide) with
   | ⟨f, hf, h1⟩ =>
     ⟨f, hf, (h1 ⟨101, [("role", Value.str "guest")]⟩).mpr (by decide),
      fun h => absurd ((h1 ⟨103, []⟩).mp h) (by decide)⟩⟩

/-! ## Order of the checks and of the entries -/

theorem bool_eq_of_iff (a b : Bool) (h : a = true ↔ b = true) : a = b := by
  cases a <;> cases b <;> simp at h ⊢

theorem PublishAllowedVia_range (f : simplePublishFilter) (sub : Session) :
    PublishAllowedVia (GoMap.range f.blMap) (GoMap.range f.wlMap) f sub =
      PublishAllowed f sub := rfl

theorem forall_ne_iff_not_mem {α : Type} (l : List α) (a : α) :
    (∀ x ∈ l, ¬ x = a) ↔ a ∉ l :=
  ⟨fun h hm => h a hm rfl, fun h _ hx e => h (e ▸ hx)⟩

theorem idBlacklistOK_iff (f : simplePublishFilter) (sub : Session) :
    idBlacklistOK f sub = true ↔ sub.ID ∉ f.blIDs := by
  simp [idBlacklistOK, forall_ne_iff_not_mem]

theorem idWhitelistOK_iff (f : simplePublishFilter) (sub : Session) :
    idWhitelistOK f sub = true ↔ (f.wlIDs = [] ∨ sub.ID ∈ f.wlIDs) := by
  simp [idWhitelistOK, List.isEmpty_iff]

theorem attrBlacklistOK_iff (f : simplePublishFilter) (sub : Session) :
    attrBlacklistOK f sub = true ↔
      ∀ e ∈ GoMap.range f.blMap,
        sessAttrOf sub.Details e.1 = "" ∨ sessAttrOf sub.Details e.1 ∉ e.2 := by
  simp [attrBlacklistOK, forall_ne_iff_not_mem]

theorem attrWhitelistOK_iff (f : simplePublishFilter) (sub : Session) :
    attrWhitelistOK f sub = true ↔
      ∀ e ∈ GoMap.range f.wlMap,
        sessAttrOf sub.Details e.1 ≠ "" ∧ sessAttrOf sub.Details e.1 ∈ e.2 := by
  simp [attrWhitelistOK]

theorem all_id_perm (l1 l2 : List Bool) (h : l1.Perm l2) : l1.all id = l2.all id := by
  apply bool_eq_of_iff
  simp only [List.all_eq_true]
  constructor
  · intro h1 x hx
    exact h1 x (h.mem_iff.mpr hx)
  · intro h1 x hx
    exact h1 x (h.mem_iff.mp hx)

/-- C17: the short-circuiting PublishAllowed equals the plain conjunction of
its four checks, each computed on its own over the whole filter, and the
conjunction of the four checks taken in any order gives the same result. -/
theorem c17_conjunction_of_checks (f : simplePublishFilter) (sub : Session) :
    PublishAllowed f sub =
        (idBlacklistOK f sub && idWhitelistOK f sub && attrBlacklistOK f sub &&
          attrWhitelistOK f sub) ∧
      ∀ l : List Bool,
        l.Perm [idBlacklistOK f sub, idWhitelistOK f sub, attrBlacklistOK f sub,
          attrWhitelistOK f sub] →
        l.all id = PublishAllowed f sub := by
  have hconj : PublishAllowed f sub =
      (idBlacklistOK f sub && idWhitelistOK f sub && attrBlacklistOK f sub &&
        attrWhitelistOK f sub) := by
    apply bool_eq_of_iff
    rw [PublishAllowed_checks]
    simp only [Bool.and_eq_true, idBlacklistOK_iff, idWhitelistOK_iff, attrBlacklistOK_iff,
      attrWhitelistOK_iff, and_assoc]
  refine ⟨hconj, ?_⟩
  intro l hl
  rw [all_id_perm l _ hl, hconj]
  simp [List.all, Bool.and_assoc]

theorem PublishAllowedVia_checks (l1 l2 : List (String × List String))
    (f : simplePublishFilter) (sub : Session) :
    PublishAllowedVia l1 l2 f sub = true ↔
      sub.ID ∉ f.blIDs ∧ (f.wlIDs = [] ∨ sub.ID ∈ f.wlIDs) ∧
      (∀ e ∈ l1, sessAttrOf sub.Details e.1 = "" ∨ sessAttrOf sub.Details e.1 ∉ e.2) ∧
      (∀ e ∈ l2, sessAttrOf sub.Details e.1 ≠ "" ∧ sessAttrOf sub.Details e.1 ∈ e.2) := by
  unfold PublishAllowedVia
  rw [← blLoop_iff, ← wlLoop_iff]
  by_cases h1 : sub.ID ∈ f.blIDs
  · simp [(idListed_iff _ _).mpr h1, h1]
  · have h1b : idListed f.blIDs sub.ID = false :=
      eq_false_of_not_true _ (fun hv => h1 ((idListed_iff _ _).mp hv))
    by_cases h2 : f.wlIDs = []
    · simp [h1b, h1, h2]
    · by_cases h3 : sub.ID ∈ f.wlIDs
      · simp [h1b, h1, h2, h3, (idListed_iff _ _).mpr h3]
      · have h3b : idListed f.wlIDs sub.ID = false :=
          eq_false_of_not_true _ (fun hv => h3 ((idListed_iff _ _).mp hv))
        simp [h1b, h1, h2, h3, h3b]

theorem SameEntries_symm (m1 m2 : GoMap (List String)) (h : SameEntries m1 m2) :
    SameEntries m2 m1 := fun attr =>
  ⟨(h attr).1.symm, fun vs1 vs2 h1 h2 s => ((h attr).2 vs2 vs1 h2 h1 s).symm⟩

theorem SameEntries_get (m1 m2 : GoMap (List String)) (h : SameEntries m1 m2)
    (attr : String) (vs1 : List String) (h1 : GoMap.get m1 attr = some vs1) :
    ∃ vs2, GoMap.get m2 attr = some vs2 ∧ ∀ s, s ∈ vs1 ↔ s ∈ vs2 := by
  have hs := (h attr).1
  rw [h1] at hs
  cases h2 : GoMap.get m2 attr with
  | none => simp [h2] at hs
  | some vs2 => exact ⟨vs2, rfl, (h attr).2 vs1 vs2 h1 h2⟩

theorem wl_nil_iff_of_mem_iff (l1 l2 : List ID) (h : ∀ x, x ∈ l1 ↔ x ∈ l2) :
    l1 = [] ↔ l2 = [] := by
  constructor
  · intro h1
    subst h1
    cases l2 with
    | nil => rfl
    | cons x xs => exact absurd ((h x).mpr (List.mem_cons_self _ _)) (List.not_mem_nil _)
  · intro h2
    subst h2
    cases l1 with
    | nil => rfl
    | cons x xs => exact absurd ((h x).mp (List.mem_cons_self _ _)) (List.not_mem_nil _)

/-- One direction of the set-dependence of `PublishAllowed`. -/
theorem PublishAllowed_of_same_sets (f g : simplePublishFilter) (sub : Session)
    (l1 l2 : List (String × List String))
    (hbl : ∀ x, x ∈ f.blIDs ↔ x ∈ g.blIDs) (hwl : ∀ x, x ∈ f.wlIDs ↔ x ∈ g.wlIDs)
    (hbm : SameEntries f.blMap g.blMap) (hwm : SameEntries f.wlMap g.wlMap)
    (h1 : ∀ e, e ∈ l1 ↔ e ∈ GoMap.range g.blMap)
    (h2 : ∀ e, e ∈ l2 ↔ e ∈ GoMap.range g.wlMap)
    (hf : PublishAllowed f sub = true) : PublishAllowedVia l1 l2 g sub = true := by
  rw [PublishAllowed_checks] at hf
  rw [PublishAllowedVia_checks]
  obtain ⟨c1, c2, c3, c4⟩ := hf
  refine ⟨fun hm => c1 ((hbl _).mpr hm), ?_, ?_, ?_⟩
  · rcases c2 with c2 | c2
    · exact Or.inl ((wl_nil_iff_of_mem_iff _ _ hwl).mp c2)
    · exact Or.inr ((hwl _).mp c2)
  · rintro ⟨attr, vs2⟩ he
    have hg := (GoMap.mem_range_iff _ _ _).mp ((h1 _).mp he)
    obtain ⟨vs1, hg1, hs⟩ := SameEntries_get _ _ (SameEntries_symm _ _ hbm) attr vs2 hg
    rcases c3 (attr, vs1) ((GoMap.mem_range_iff _ _ _).mpr hg1) with c | c
    · exact Or.inl c
    · exact Or.inr (fun hm => c ((hs _).mp hm))
  · rintro ⟨attr, vs2⟩ he
    have hg := (GoMap.mem_range_iff _ _ _).mp ((h2 _).mp he)
    obtain ⟨vs1, hg1, hs⟩ := SameEntries_get _ _ (SameEntries_symm _ _ hwm) attr vs2 hg
    obtain ⟨c, c5⟩ := c4 (attr, vs1) ((GoMap.mem_range_iff _ _ _).mpr hg1)
    exact ⟨c, (hs _).mpr c5⟩

/-- The other direction of the set-dependence of `PublishAllowed`. -/
theorem PublishAllowed_of_same_sets_rev (f g : simplePublishFilter) (sub : Session)
    (l1 l2 : List (String × List String))
    (hbl : ∀ x, x ∈ f.blIDs ↔ x ∈ g.blIDs) (hwl : ∀ x, x ∈ f.wlIDs ↔ x ∈ g.wlIDs)
    (hbm : SameEntries f.blMap g.blMap) (hwm : SameEntries f.wlMap g.wlMap)
    (h1 : ∀ e, e ∈ l1 ↔ e ∈ GoMap.range g.blMap)
    (h2 : ∀ e, e ∈ l2 ↔ e ∈ GoMap.range g.wlMap)
    (hg : PublishAllowedVia l1 l2 g sub = true) : PublishAllowed f sub = true := by
  rw [PublishAllowed_checks]
  rw [PublishAllowedVia_checks] at hg
  obtain ⟨c1, c2, c3, c4⟩ := hg
  refine ⟨fun hm => c1 ((hbl _).mp hm), ?_, ?_, ?_⟩
  · rcases c2 with c2 | c2
    · exact Or.inl ((wl_nil_iff_of_mem_iff _ _ hwl).mpr c2)
    · exact Or.inr ((hwl _).mpr c2)
  · rintro ⟨attr, vs1⟩ he
    have hg1 := (GoMap.mem_range_iff _ _ _).mp he
    obtain ⟨vs2, hg2, hs⟩ := SameEntries_get _ _ hbm attr vs1 hg1
    rcases c3 (attr, vs2) ((h1 _).mpr ((GoMap.mem_range_iff _ _ _).mpr hg2)) with c | c
    · exact Or.inl c
    · exact Or.inr (fun hm => c ((hs _).mp hm))
  · rintro ⟨attr, vs1⟩ he
    have hg1 := (GoMap.mem_range_iff _ _ _).mp he
    obtain ⟨vs2, hg2, hs⟩ := SameEntries_get _ _ hwm attr vs1 hg1
    obtain ⟨c, c5⟩ := c4 (attr, vs2) ((h2 _).mpr ((GoMap.mem_range_iff _ _ _).mpr hg2))
    exact ⟨c, (hs _).mpr c5⟩

/-- C18: the result of PublishAllowed depends only on the set of identifiers
in blIDs and in wlIDs, on the keys of blMap and wlMap and on the set of
strings in each value list; and the order in which the two range loops visit
the map entries does not change it. -/
theorem c18_depends_on_sets_only (f g : simplePublishFilter) (sub : Session)
    (l1 l2 : List (String × List String))
    (hbl : ∀ x, x ∈ f.blIDs ↔ x ∈ g.blIDs) (hwl : ∀ x, x ∈ f.wlIDs ↔ x ∈ g.wlIDs)
    (hbm : SameEntries f.blMap g.blMap) (hwm : SameEntries f.wlMap g.wlMap)
    (h1 : l1.Perm (GoMap.range g.blMap)) (h2 : l2.Perm (GoMap.range g.wlMap)) :
    PublishAllowedVia l1 l2 g sub = PublishAllowed f sub := by
  apply bool_eq_of_iff
  exact ⟨PublishAllowed_of_same_sets_rev f g sub l1 l2 hbl hwl hbm hwm
      (fun _ => h1.mem_iff) (fun _ => h2.mem_iff),
    PublishAllowed_of_same_sets f g sub l1 l2 hbl hwl hbm hwm
      (fun _ => h1.mem_iff) (fun _ => h2.mem_iff)⟩

/-- C18 at two filters that list the same identifiers, keys and values with
other orders and repetitions, the loops visiting the entries in reverse. -/
theorem c18_depends_on_sets_only_witness :
    PublishAllowedVia [("a", ["y", "x"]), ("b", ["z", "z"])] [("c", ["u", "u"])]
        ⟨[2, 1, 2], [3, 3], [("b", ["z", "z"]), ("a", ["y", "x"])], [("c", ["u", "u"])], true⟩
        ⟨3, [("a", Value.str "w"), ("c", Value.str "u")]⟩ =
      PublishAllowed
        ⟨[1, 2], [3], [("a", ["x", "y"]), ("b", ["z"])], [("c", ["u"])], true⟩
        ⟨3, [("a", Value.str "w"), ("c", Value.str "u")]⟩ :=
  c18_depends_on_sets_only
    ⟨[1, 2], [3], [("a", ["x", "y"]), ("b", ["z"])], [("c", ["u"])], true⟩
    ⟨[2, 1, 2], [3, 3], [("b", ["z", "z"]), ("a", ["y", "x"])], [("c", ["u", "u"])], true⟩
    ⟨3, [("a", Value.str "w"), ("c", Value.str "u")]⟩
    [("a", ["y", "x"]), ("b", ["z", "z"])] [("c", ["u", "u"])]
    (by
      intro x
      simp only [List.mem_cons, List.mem_nil_iff, or_false]
      tauto)
    (by
      intro x
      simp only [List.mem_cons, List.mem_nil_iff, or_false]
      tauto)
    (by
      intro attr
      by_cases ha : "a" = attr
      · subst ha
        refine ⟨by decide, ?_⟩
        intro vs1 vs2 e1 e2 s
        have e3 : some ["x", "y"] = some vs1 := e1
        have e4 : some ["y", "x"] = some vs2 := e2
        cases e3
        cases e4
        simp only [List.mem_cons, List.mem_nil_iff, or_false]
        tauto
      · by_cases hb : "b" = attr
        · subst hb
          refine ⟨by decide, ?_⟩
          intro vs1 vs2 e1 e2 s
          have e3 : some ["z"] = some vs1 := e1
          have e4 : some ["z", "z"] = some vs2 := e2
          cases e3
          cases e4
          simp only [List.mem_cons, List.mem_nil_iff, or_false]
          tauto
        · refine ⟨by simp [GoMap.get, ha, hb], ?_⟩
          intro vs1 vs2 e1
          simp [GoMap.get, ha, hb] at e1)
    (by
      intro attr
      by_cases hc : "c" = attr
      · subst hc
        refine ⟨by decide, ?_⟩
        intro vs1 vs2 e1 e2 s
        have e3 : some ["u"] = some vs1 := e1
        have e4 : some ["u", "u"] = some vs2 := e2
        cases e3
        cases e4
        simp only [List.mem_cons, List.mem_nil_iff, or_false]
        tauto
      · refine ⟨by simp [GoMap.get, hc], ?_⟩
        intro vs1 vs2 e1
        simp [GoMap.get, hc] at e1)
    (List.Perm.swap _ _ _)
    (List.Perm.refl _)

/-! ## Empty-string attributes and monotonicity -/

theorem sessAttrOf_delete (details : Dict) (attr a : String)
    (h : sessAttrOf details attr = "") :
    sessAttrOf (GoMap.delete details attr) a = sessAttrOf details a := by
  by_cases ha : attr = a
  · subst ha
    rw [h]
    simp [sessAttrOf, Dict.index, GoMap.get_delete_self, AsString]
  · simp [sessAttrOf, Dict.index, GoMap.get_delete_ne details attr a ha]

theorem PublishAllowed_delete_detail (f : simplePublishFilter) (sub : Session) (attr : String)
    (h : sessAttrOf sub.Details attr = "") :
    PublishAllowed f sub =
      PublishAllowed f { sub with Details := GoMap.delete sub.Details attr } := by
  apply bool_eq_of_iff
  rw [PublishAllowed_checks, PublishAllowed_checks]
  simp only [sessAttrOf_delete sub.Details attr _ h]

theorem PublishAllowed_delete_bl (f : simplePublishFilter) (sub : Session) (attr : String)
    (h : sessAttrOf sub.Details attr = "") :
    PublishAllowed f sub =
      PublishAllowed { f with blMap := GoMap.delete f.blMap attr } sub := by
  apply bool_eq_of_iff
  rw [PublishAllowed_checks, PublishAllowed_checks]
  constructor
  · rintro ⟨h1, h2, h3, h4⟩
    exact ⟨h1, h2, fun e he => h3 e ((GoMap.mem_range_delete _ _ _).mp he).1, h4⟩
  · rintro ⟨h1, h2, h3, h4⟩
    refine ⟨h1, h2, ?_, h4⟩
    intro e he
    by_cases hk : e.1 = attr
    · left
      rw [hk]
      exact h
    · exact h3 e ((GoMap.mem_range_delete _ _ _).mpr ⟨he, hk⟩)

/-- C19: a session attribute whose value is the empty string is treated like
an absent one: the result is that for the session with attr removed from its
details; the blMap entry for attr has no effect on it, and a wlMap entry for
attr denies the session whatever its value list holds. -/
theorem c19_empty_string_like_absent (f : simplePublishFilter) (sub : Session)
    (attr : String) (h : Dict.index sub.Details attr = Value.str "") :
    PublishAllowed f sub =
        PublishAllowed f { sub with Details := GoMap.delete sub.Details attr } ∧
      PublishAllowed f sub =
        PublishAllowed { f with blMap := GoMap.delete f.blMap attr } sub ∧
      (∀ values, GoMap.get f.wlMap attr = some values → PublishAllowed f sub = false) := by
  have hempty : sessAttrOf sub.Details attr = "" := sessAttrOf_str _ _ _ h
  refine ⟨PublishAllowed_delete_detail f sub attr hempty,
    PublishAllowed_delete_bl f sub attr hempty, ?_⟩
  intro values hg
  apply eq_false_of_not_true
  intro hp
  exact ((PublishAllowed_checks f sub).mp hp).2.2.2 (attr, values)
    ((GoMap.mem_range_iff _ _ _).mpr hg) |>.1 hempty

/-- C19 at a session whose role is the empty string, against a blacklist and
a whitelist that both list the empty string for role. -/
theorem c19_empty_string_like_absent_witness :
    PublishAllowed ⟨[], [], [("role", [""])], [], true⟩ ⟨1, [("role", Value.str "")]⟩ =
        PublishAllowed ⟨[], [], [("role", [""])], [], true⟩ ⟨1, []⟩ ∧
      PublishAllowed ⟨[], [], [], [("role", ["", "x"])], true⟩
        ⟨1, [("role", Value.str "")]⟩ = false :=
  ⟨(c19_empty_string_like_absent ⟨[], [], [("role", [""])], [], true⟩
      ⟨1, [("role", Value.str "")]⟩ "role" rfl).1,
   (c19_empty_string_like_absent ⟨[], [], [], [("role", ["", "x"])], true⟩
      ⟨1, [("role", Value.str "")]⟩ "role" rfl).2.2 ["", "x"] (by decide)⟩

theorem GoMap.mem_range_set {α : Type} (m : GoMap α) (k k1 : String) (v v1 : α) :
    (k1, v1) ∈ GoMap.range (GoMap.set m k v) ↔
      (k = k1 ∧ v = v1) ∨ (k ≠ k1 ∧ GoMap.get m k1 = some v1) := by
  rw [GoMap.mem_range_iff, GoMap.get_set]
  by_cases h : k = k1
  · simp [h]
  · simp [h]

theorem mem_insert_of_mem {α : Type} (l1 l2 : List α) (x a : α) (h : a ∈ l1 ++ l2) :
    a ∈ l1 ++ x :: l2 := by
  simp only [List.mem_append, List.mem_cons] at h ⊢
  rcases h with h | h
  · exact Or.inl h
  · exact Or.inr (Or.inr h)

/-- C20: a denial stays a denial after adding an identifier to blIDs, a value
to a blMap list, or a new entry to blMap; an allowance stays an allowance
after adding an identifier to a non-empty wlIDs or a value to an existing
wlMap list. -/
theorem c20_monotone (f : simplePublishFilter) (sub : Session) :
    (PublishAllowed f sub = false →
      (∀ l1 l2 x, f.blIDs = l1 ++ l2 →
        PublishAllowed { f with blIDs := l1 ++ x :: l2 } sub = false) ∧
      (∀ attr v1 v2 v, GoMap.get f.blMap attr = some (v1 ++ v2) →
        PublishAllowed { f with blMap := GoMap.set f.blMap attr (v1 ++ v :: v2) } sub =
          false) ∧
      (∀ attr values, GoMap.get f.blMap attr = none →
        PublishAllowed { f with blMap := GoMap.set f.blMap attr values } sub = false)) ∧
    (PublishAllowed f sub = true →
      (∀ l1 l2 x, f.wlIDs = l1 ++ l2 → f.wlIDs ≠ [] →
        PublishAllowed { f with wlIDs := l1 ++ x :: l2 } sub = true) ∧
      (∀ attr v1 v2 v, GoMap.get f.wlMap attr = some (v1 ++ v2) →
        PublishAllowed { f with wlMap := GoMap.set f.wlMap attr (v1 ++ v :: v2) } sub =
          true)) := by
  constructor
  · intro hdeny
    have hnot : ¬ PublishAllowed f sub = true := by simp [hdeny]
    refine ⟨?_, ?_, ?_⟩
    · intro l1 l2 x hl
      apply eq_false_of_not_true
      intro hp
      apply hnot
      rw [PublishAllowed_checks] at hp ⊢
      obtain ⟨c1, c2, c3, c4⟩ := hp
      refine ⟨?_, c2, c3, c4⟩
      intro hm
      rw [hl] at hm
      exact c1 (mem_insert_of_mem l1 l2 x _ hm)
    · intro attr v1 v2 v hg
      apply eq_false_of_not_true
      intro hp
      apply hnot
      rw [PublishAllowed_checks] at hp ⊢
      obtain ⟨c1, c2, c3, c4⟩ := hp
      refine ⟨c1, c2, ?_, c4⟩
      rintro ⟨a, vs⟩ he
      have hga := (GoMap.mem_range_iff _ _ _).mp he
      by_cases ha : attr = a
      · subst ha
        rw [hg] at hga
        cases hga
        rcases c3 (attr, v1 ++ v :: v2)
          ((GoMap.mem_range_set _ _ _ _ _).mpr (Or.inl ⟨rfl, rfl⟩)) with c | c
        · exact Or.inl c
        · exact Or.inr (fun hm => c (mem_insert_of_mem v1 v2 v _ hm))
      · exact c3 (a, vs) ((GoMap.mem_range_set _ _ _ _ _).mpr (Or.inr ⟨ha, hga⟩))
    · intro attr values hg
      apply eq_false_of_not_true
      intro hp
      apply hnot
      rw [PublishAllowed_checks] at hp ⊢
      obtain ⟨c1, c2, c3, c4⟩ := hp
      refine ⟨c1, c2, ?_, c4⟩
      rintro ⟨a, vs⟩ he
      have hga := (GoMap.mem_range_iff _ _ _).mp he
      have ha : attr ≠ a := by
        intro e
        subst e
        rw [hg] at hga
        cases hga
      exact c3 (a, vs) ((GoMap.mem_range_set _ _ _ _ _).mpr (Or.inr ⟨ha, hga⟩))
  · intro hallow
    rw [PublishAllowed_checks] at hallow
    obtain ⟨c1, c2, c3, c4⟩ := hallow
    refine ⟨?_, ?_⟩
    · intro l1 l2 x hl hne
      rw [PublishAllowed_checks]
      refine ⟨c1, Or.inr ?_, c3, c4⟩
      rcases c2 with c2 | c2
      · exact absurd c2 hne
      · rw [hl] at c2
        exact mem_insert_of_mem l1 l2 x _ c2
    · intro attr v1 v2 v hg
      rw [PublishAllowed_checks]
      refine ⟨c1, c2, c3, ?_⟩
      rintro ⟨a, vs⟩ he
      rcases (GoMap.mem_range_set _ _ _ _ _).mp he with ⟨hk, hv⟩ | ⟨_, hga⟩
      · subst hk
        subst hv
        obtain ⟨c, c5⟩ := c4 (attr, v1 ++ v2) ((GoMap.mem_range_iff _ _ _).mpr hg)
        exact ⟨c, mem_insert_of_mem v1 v2 v _ c5⟩
      · exact c4 (a, vs) ((GoMap.mem_range_iff _ _ _).mpr hga)

/-- C20 at a session denied by its role, after one more blacklisted
identifier, and at a session allowed by its region, after one more
whitelisted region. -/
theorem c20_monotone_witness :
    PublishAllowed ⟨[4, 7], [], [("role", ["guest"])], [], true⟩
        ⟨1, [("role", Value.str "guest")]⟩ = false ∧
      PublishAllowed ⟨[], [1], [], [("region", ["us", "ap", "eu"])], true⟩
        ⟨1, [("region", Value.str "us")]⟩ = true :=
  ⟨((c20_monotone ⟨[4], [], [("role", ["guest"])], [], true⟩
        ⟨1, [("role", Value.str "guest")]⟩).1 (by decide)).1 [4] [] 7 rfl,
   ((c20_monotone ⟨[], [1], [], [("region", ["us", "eu"])], true⟩
        ⟨1, [("region", Value.str "us")]⟩).2 (by decide)).2 "region" ["us"] ["eu"] "ap"
      (by decide)⟩

end Filter
